import Mathlib

/-!
Verification of the harp.gl text-element placement and lifecycle engine
(`TextElementStateCache.ts`, `TextElementsRenderer.ts`).

The TypeScript classes are shallowly embedded: object identity is modelled by
natural-number ids, the mutable object graph by explicit id-indexed stores
("heaps"), JavaScript `Map`s by insertion-ordered association lists, and
wall-clock reads / external collaborators (screen projector, screen collisions,
font catalog, poi renderer) by oracle parameters.  Helper classes that are not
part of the sources (`TextElementState`, `TextElementGroupState`,
`RenderState`) are modelled from the specification, as marked in their doc
comments.
-/

namespace Harp

/-- Text element types, as used by the cache and the renderer
(`TextElementType.PoiLabel` / `PathLabel` / `LineMarker`). -/
inductive TextElementType where
  | PoiLabel
  | PathLabel
  | LineMarker
deriving DecidableEq, Repr

/-- A 3D point with integer coordinates, standing in for `THREE.Vector3`. -/
structure Vec3 where
  x : Int
  y : Int
  z : Int
deriving DecidableEq, Repr

/-- `THREE.Vector3.distanceToSquared`. -/
def Vec3.distanceToSquared (a b : Vec3) : Int :=
  (a.x - b.x) ^ 2 + (a.y - b.y) ^ 2 + (a.z - b.z) ^ 2

/-- Label distance threshold squared in meters (`TextElementStateCache.ts`). -/
def MAX_LABEL_DUPLICATE_DIST_SQ : Int := 15000000

/-- The part of a `TextElement` the cache reads: its type, its text and (for
point labels) its anchor position (`element.points as THREE.Vector3`). -/
structure TextElement where
  id : Nat
  etype : TextElementType
  text : String
  position : Vec3
deriving DecidableEq, Repr

/-- A `TextElementGroup`: an immutable ordered sequence of text elements
sharing one priority; identity (`id`) models JS object identity. -/
structure TextElementGroup where
  id : Nat
  priority : Int
  elements : List TextElement
deriving DecidableEq, Repr

/-- Modelled from the spec: the fade phases of the `RenderState` machine,
`Invisible → FadingIn → Visible → FadingOut → Invisible` (the class
`RenderState` is not among the sources). -/
inductive FadingState where
  | invisible
  | fadingIn
  | visible
  | fadingOut
deriving DecidableEq, Repr

/-- Modelled from the spec: the configured fade duration used by the
`RenderState` opacity function. -/
def DEFAULT_FADE_TIME : Int := 800

/-- Modelled from the spec: `RenderState` — fade phase, phase start time, a
time-based opacity in [0,1] and a monotonic `lastFrameNumber`. -/
structure RenderState where
  phase : FadingState
  startTime : Int
  opacity : Rat
  lastFrameNumber : Int
deriving DecidableEq, Repr

/-- Modelled from the spec: a freshly created render state is `Invisible`
(initial state of the cyclic fade machine) and fully transparent. -/
def RenderState.initial : RenderState :=
  { phase := .invisible, startTime := 0, opacity := 0, lastFrameNumber := -1 }

/-- Modelled from the spec: an element is visibly on screen while its fade
machine is anywhere but `Invisible` (fading elements are retained until the
fade-out completes and the cache evicts them). -/
def RenderState.isVisible (rs : RenderState) : Bool :=
  rs.phase != .invisible

/-- Modelled from the spec: advance the fade machine by `time`.  Opacity is a
deterministic function of elapsed time versus the fade duration; when
`disableFading` is set transitions are instantaneous. -/
def RenderState.updateFading (rs : RenderState) (time : Int) (disableFading : Bool) :
    RenderState :=
  match rs.phase with
  | .fadingIn =>
      if disableFading || decide (rs.startTime + DEFAULT_FADE_TIME ≤ time) then
        { rs with phase := .visible, opacity := 1 }
      else
        { rs with opacity := ((time - rs.startTime : Int) : Rat) / (DEFAULT_FADE_TIME : Rat) }
  | .fadingOut =>
      if disableFading || decide (rs.startTime + DEFAULT_FADE_TIME ≤ time) then
        { rs with phase := .invisible, opacity := 0 }
      else
        { rs with opacity := 1 - ((time - rs.startTime : Int) : Rat) / (DEFAULT_FADE_TIME : Rat) }
  | _ => rs

/-- Modelled from the spec: `TextElementState` — one render state for the
text, zero or more for icon instances, the last filter-reported
`viewDistance` (`none` ⇒ not currently placeable) and the `initialized`
flag (passed the pre-placement filter).  The class is not among the
sources. -/
structure TextElementState where
  element : TextElement
  textRenderState : Option RenderState
  iconRenderStates : List RenderState
  viewDistance : Option Int
  initialized : Bool
deriving DecidableEq, Repr

/-- Modelled from the spec: a state is visible when its text render state or
any icon render state is visible. -/
def TextElementState.visible (st : TextElementState) : Bool :=
  (match st.textRenderState with
   | some rs => rs.isVisible
   | none => false) ||
  st.iconRenderStates.any RenderState.isVisible

/-- Modelled from the spec: resetting a state restarts its fade machine
(treated as newly appearing) and forgets its view distance. -/
def TextElementState.reset (st : TextElementState) : TextElementState :=
  { st with
    textRenderState := st.textRenderState.map fun _ => RenderState.initial
    iconRenderStates := st.iconRenderStates.map fun _ => RenderState.initial
    viewDistance := none }

/-- Modelled from the spec: `replace` transfers the other state's fade state
into this one so the label does not visibly restart its fade. -/
def TextElementState.replace (st other : TextElementState) : TextElementState :=
  { st with
    textRenderState := other.textRenderState
    iconRenderStates := other.iconRenderStates }

/-- Modelled from the spec: advance all render states of one element state. -/
def TextElementState.updateFading (st : TextElementState) (time : Int)
    (disableFading : Bool) : TextElementState :=
  { st with
    textRenderState := st.textRenderState.map fun rs => rs.updateFading time disableFading
    iconRenderStates := st.iconRenderStates.map fun rs => rs.updateFading time disableFading }

/-- Default element state used to totalize heap reads; under the cache
invariants every id stored in the text map is allocated, so this value is
never observed (JS object references cannot dangle). -/
def TextElementState.dangling : TextElementState :=
  { element := { id := 0, etype := .PoiLabel, text := "", position := ⟨0, 0, 0⟩ }
    textRenderState := none
    iconRenderStates := []
    viewDistance := none
    initialized := false }

/-- Association-list lookup keyed by `Nat` ids (first occurrence wins, as for
a JS `Map`). -/
def alookup {α : Type} (l : List (Nat × α)) (k : Nat) : Option α :=
  match l.find? fun p => p.1 == k with
  | some p => some p.2
  | none => none

/-- JS `Map.set`: update the first occurrence of the key in place, otherwise
append at the end (JS maps preserve insertion order). -/
def aset {α : Type} (l : List (Nat × α)) (k : Nat) (v : α) : List (Nat × α) :=
  match l with
  | [] => [(k, v)]
  | p :: rest => if p.1 == k then (k, v) :: rest else p :: aset rest k v

/-- In-place object mutation: rewrite the entry of an existing id (no
insertion — TS mutates the object behind the reference). -/
def amodify {α : Type} (l : List (Nat × α)) (k : Nat) (f : α → α) : List (Nat × α) :=
  l.map fun p => if p.1 == k then (p.1, f p.2) else p

/-- The deduplication-relevant part of the cache: the text → candidate index
(`m_textMap`, storing state ids) and the store of live `TextElementState`
objects. -/
structure DedupState where
  textMap : List (String × List Nat)
  heap : List (Nat × TextElementState)
deriving DecidableEq, Repr

/-- Read a state object behind a reference. -/
def DedupState.get (dd : DedupState) (sid : Nat) : TextElementState :=
  match dd.heap.find? fun p => p.1 == sid with
  | some p => p.2
  | none => TextElementState.dangling

/-- Mutate a state object behind a reference. -/
def DedupState.modify (dd : DedupState) (sid : Nat) (f : TextElementState → TextElementState) :
    DedupState :=
  { dd with heap := amodify dd.heap sid f }

/-- `m_textMap` lookup. -/
def DedupState.textLookup (dd : DedupState) (text : String) : Option (List Nat) :=
  match dd.textMap.find? fun p => p.1 == text with
  | some p => some p.2
  | none => none

/-- `m_textMap.set`. -/
def DedupState.textSet (dd : DedupState) (text : String) (entry : List Nat) : DedupState :=
  { dd with textMap := textSetGo dd.textMap text entry }
where
  textSetGo : List (String × List Nat) → String → List Nat → List (String × List Nat)
    | [], t, e => [(t, e)]
    | p :: rest, t, e => if p.1 == t then (t, e) :: rest else p :: textSetGo rest t e

/-- `TextElementStateCache.findDuplicate`: among the cached entries sharing the
element's text, the index of the first candidate closer (in squared world
distance) than `MAX_LABEL_DUPLICATE_DIST_SQ`; `none` inner index models the
`-1` result, outer `none` models no same-text entry at all. -/
def findDuplicate (dd : DedupState) (st : TextElementState) :
    Option (List Nat × Option Nat) :=
  match dd.textLookup st.element.text with
  | none => none
  | some cachedEntries =>
      let idx := cachedEntries.findIdx? fun cid =>
        decide (((dd.get cid).element.position.distanceToSquared st.element.position) <
          MAX_LABEL_DUPLICATE_DIST_SQ)
      some (cachedEntries, idx)

/-- `TextElementStateCache.deduplicateElement`, for the state object referenced
by `sid` with current value `st`.  Returns whether the element survives
deduplication together with the updated dedup store. -/
def deduplicateElement (dd : DedupState) (sid : Nat) (st : TextElementState) :
    Bool × DedupState :=
  if st.element.etype ≠ TextElementType.PoiLabel then
    (true, dd)
  else
    match findDuplicate dd st with
    | none =>
        (true, dd.textSet st.element.text [sid])
    | some (entry, none) =>
        (true, dd.textSet st.element.text (entry ++ [sid]))
    | some (entry, some i) =>
        let cid := entry.getD i 0
        let cachedDuplicate := dd.get cid
        if !cachedDuplicate.visible && st.visible then
          let dd1 := dd.textSet st.element.text (entry.set i sid)
          (true, dd1.modify cid TextElementState.reset)
        else
          (false, dd)

/-- `TextElementStateCache.replaceElement` (the development-build asserts are
no-ops in production and are omitted). -/
def replaceElement (dd : DedupState) (st : TextElementState) : DedupState :=
  if st.element.etype ≠ TextElementType.PoiLabel then
    dd
  else
    match findDuplicate dd st with
    | none => dd
    | some (_, none) => dd
    | some (entry, some i) =>
        let rid := entry.getD i 0
        dd.modify rid fun replacement => replacement.replace st

/-- The state of one cached group: the (immutable) group, references to the
owned element states, and the `visited` flag. -/
structure TextElementGroupState where
  group : TextElementGroup
  stateIds : List Nat
  visited : Bool
deriving DecidableEq, Repr

/-- `TextElementGroupState.size`. -/
def TextElementGroupState.size (gs : TextElementGroupState) : Nat :=
  gs.stateIds.length

/-- `TextElementGroupState.priority`. -/
def TextElementGroupState.priority (gs : TextElementGroupState) : Int :=
  gs.group.priority

/-- Modelled from the spec: `TextElementGroupState.updateFading` — advance the
fade state of every owned element state; the `replace` callback (here the
`replaceActive` flag standing for a bound `replaceElement`) is only applied
for visible states; returns whether any element of the group is still
visible. -/
def groupUpdateFadingGo (time : Int) (df : Bool) (replaceActive : Bool) :
    List Nat → DedupState → Bool → DedupState × Bool
  | [], dd, vis => (dd, vis)
  | sid :: rest, dd, vis =>
      let st' := (dd.get sid).updateFading time df
      let dd1 := dd.modify sid fun _ => st'
      let dd2 := if replaceActive && st'.visible then replaceElement dd1 st' else dd1
      groupUpdateFadingGo time df replaceActive rest dd2 (vis || st'.visible)

/-- Modelled from the spec: group-level `updateFading`. -/
def TextElementGroupState.updateFading (gs : TextElementGroupState) (dd : DedupState)
    (time : Int) (df : Bool) (replaceActive : Bool) : DedupState × Bool :=
  groupUpdateFadingGo time df replaceActive gs.stateIds dd false

/-- The pre-placement filter: given a state reference and its current value it
reports the view distance (`none` ⇒ excluded this cycle) and may touch the
dedup store (the renderer's filter calls `deduplicateElement`). -/
def TextElementFilter : Type :=
  Nat → TextElementState → DedupState → Option Int × DedupState

/-- The `TextElementStateCache`: group states keyed by group identity
(insertion-ordered, like the JS `Map`), the lazily cached priority-sorted
view, the dedup store and the next fresh state id. -/
structure TextElementStateCache where
  referenceMap : List (Nat × TextElementGroupState)
  sorted : Option (List TextElementGroupState)
  dedup : DedupState
  nextStateId : Nat

namespace TextElementStateCache

/-- An empty cache. -/
def empty : TextElementStateCache :=
  { referenceMap := [], sorted := none, dedup := ⟨[], []⟩, nextStateId := 0 }

/-- `TextElementStateCache.size`. -/
def size (c : TextElementStateCache) : Nat :=
  c.referenceMap.length

/-- Modelled from the spec: the `TextElementGroupState` constructor — create
one state per element and apply the filter once per element (an element the
filter rejects is marked not initialized but keeps its entry). -/
def buildStates (f : TextElementFilter) :
    List TextElement → DedupState → Nat → List Nat × DedupState × Nat
  | [], dd, nid => ([], dd, nid)
  | el :: rest, dd, nid =>
      let st0 : TextElementState :=
        { element := el
          textRenderState := some RenderState.initial
          iconRenderStates := []
          viewDistance := none
          initialized := false }
      let dd1 : DedupState := { dd with heap := dd.heap ++ [(nid, st0)] }
      let fr := f nid st0 dd1
      let dd3 := fr.2.modify nid fun s =>
        { s with viewDistance := fr.1, initialized := fr.1.isSome }
      let r := buildStates f rest dd3 (nid + 1)
      (nid :: r.1, r.2.1, r.2.2)

/-- Modelled from the spec: `TextElementGroupState.updateElements` — re-apply
the filter to refresh each element's `viewDistance` / `initialized`. -/
def updateElementsGo (f : TextElementFilter) : List Nat → DedupState → DedupState
  | [], dd => dd
  | sid :: rest, dd =>
      let fr := f sid (dd.get sid) dd
      let dd2 := fr.2.modify sid fun s =>
        { s with viewDistance := fr.1, initialized := fr.1.isSome }
      updateElementsGo f rest dd2

/-- `TextElementStateCache.getOrSet`: on a hit the private `get` marks the
group visited, the size assert (a production no-op) is checked by theorem
`C10` style invariants, and `updateElements` re-runs the filter; on a miss a
new group state is constructed and inserted via the private `set`. -/
def getOrSet (c : TextElementStateCache) (g : TextElementGroup) (f : TextElementFilter) :
    TextElementGroupState × Bool × TextElementStateCache :=
  match alookup c.referenceMap g.id with
  | some gs =>
      let gs' := { gs with visited := true }
      let dd := updateElementsGo f gs'.stateIds c.dedup
      (gs', true,
        { c with referenceMap := aset c.referenceMap g.id gs', dedup := dd })
  | none =>
      let b := buildStates f g.elements c.dedup c.nextStateId
      let gs : TextElementGroupState := { group := g, stateIds := b.1, visited := false }
      (gs, false,
        { c with
          referenceMap := aset c.referenceMap g.id gs
          sorted := none
          dedup := b.2.1
          nextStateId := b.2.2 })

/-- Core of `TextElementStateCache.update`: walk all cached groups in map
order, advance their fading (threading the shared state store), keep a group
iff it is still visible or was visited, and record an audit trace of
`(groupId, updateFading result, visited)` triples. -/
def updateCoreGo (time : Int) (df : Bool) (fr : Bool) :
    List (Nat × TextElementGroupState) → DedupState →
    List (Nat × TextElementGroupState) × DedupState × List (Nat × Bool × Bool) × Bool
  | [], dd => ([], dd, [], false)
  | (gid, gs) :: rest, dd =>
      let u := gs.updateFading dd time df (fr && !gs.visited)
      let keep := u.2 || gs.visited
      let r := updateCoreGo time df fr rest u.1
      ((if keep then (gid, gs) :: r.1 else r.1), r.2.1, (gid, u.2, gs.visited) :: r.2.2.1,
        r.2.2.2 || !keep)

/-- `TextElementStateCache.update(time, disableFading, findReplacements)`:
note the parameter list of the source, which differs from the class's own doc
comment.  Every eviction invalidates the sorted view; returns whether any
group was evicted. -/
def update (c : TextElementStateCache) (time : Int) (disableFading : Bool)
    (findReplacements : Bool) : TextElementStateCache × Bool :=
  let r := updateCoreGo time disableFading findReplacements c.referenceMap c.dedup
  ({ c with
      referenceMap := r.1
      dedup := r.2.1
      sorted := if r.2.2.2 then none else c.sorted }, r.2.2.2)

/-- `TextElementStateCache.clearVisited` (defined by the source but never
called by the renderer). -/
def clearVisited (c : TextElementStateCache) : TextElementStateCache :=
  { c with referenceMap := c.referenceMap.map fun p => (p.1, { p.2 with visited := false }) }

/-- `TextElementStateCache.sortedGroupStates`: lazily recomputed view of all
group states sorted by descending group priority (JS `Array.sort` is stable,
hence `mergeSort`). -/
def sortedGroupStates (c : TextElementStateCache) : List TextElementGroupState :=
  match c.sorted with
  | some l => l
  | none =>
      (c.referenceMap.map Prod.snd).mergeSort fun a b =>
        decide (b.priority ≤ a.priority)

end TextElementStateCache

/-- The call `this.m_textElementStateCache.update(time, clearVisitedGroups,
this.m_options.disableFading!)` made by `TextElementsRenderer.placeText`
(lines 363–368): the `clearVisitedGroups` value is passed where `update`
declares `disableFading`, and the configured `disableFading` option where
`update` declares `findReplacements`. -/
def placeTextCacheUpdate (c : TextElementStateCache) (time : Int)
    (updateTextElements : Bool) (optionsDisableFading : Bool) :
    TextElementStateCache × Bool :=
  let clearVisitedGroups := updateTextElements
  TextElementStateCache.update c time clearVisitedGroups optionsDisableFading

/-- `placeText` line 383 together with line 1179: new text elements are placed
when elements were updated this frame, any group was evicted, or a finished
glyph load forced a new-labels pass. -/
def placeNewTextElementsFlag (updateTextElements anyTextGroupEvicted
    forceNewLabelsPass : Bool) : Bool :=
  forceNewLabelsPass || (updateTextElements || anyTextGroupEvicted)

/-- `TextElementsRenderer.prepareTextElementGroup`: empty groups are skipped
before `getOrSet` is reached (so the non-empty assert of the private `set`
never fires). -/
def prepareTextElementGroup (c : TextElementStateCache) (g : TextElementGroup)
    (f : TextElementFilter) : TextElementStateCache :=
  if g.elements.length = 0 then c
  else (TextElementStateCache.getOrSet c g f).2.2

/-- Priority-keyed insertion-ordered map used by
`createSortedGroupsForSorting`. -/
def prioritySet (l : List (Int × List TextElementGroup)) (k : Int)
    (v : List TextElementGroup) : List (Int × List TextElementGroup) :=
  match l with
  | [] => [(k, v)]
  | p :: rest => if p.1 == k then (k, v) :: rest else p :: prioritySet rest k v

/-- Lookup in the priority-keyed map. -/
def priorityLookup (l : List (Int × List TextElementGroup)) (k : Int) :
    Option (List TextElementGroup) :=
  match l.find? fun p => p.1 == k with
  | some p => some p.2
  | none => none

/-- Inner loop of `createSortedGroupsForSorting` over one tile's groups:
empty groups are skipped, the rest are appended to their priority bucket. -/
def collectGroups : List TextElementGroup → List (Int × List TextElementGroup) →
    List (Int × List TextElementGroup)
  | [], m => m
  | g :: rest, m =>
      if g.elements.length = 0 then collectGroups rest m
      else
        match priorityLookup m g.priority with
        | none => collectGroups rest (prioritySet m g.priority [g])
        | some lst => collectGroups rest (prioritySet m g.priority (lst ++ [g]))

/-- Outer loop of `createSortedGroupsForSorting` over the tiles to render. -/
def collectTiles : List (Bool × List TextElementGroup) →
    List (Int × List TextElementGroup) → List (Int × List TextElementGroup)
  | [], m => m
  | t :: rest, m => collectTiles rest (collectGroups t.2 m)

/-- `TextElementsRenderer.createSortedGroupsForSorting`: tiles whose data
source refuses text are dropped, empty groups are skipped, the remaining
groups are bucketed by priority and the buckets sorted by descending
priority.  A tile is given as its `shouldRenderText` verdict plus its
groups. -/
def createSortedGroupsForSorting (tiles : List (Bool × List TextElementGroup)) :
    List (Int × List TextElementGroup) :=
  (collectTiles (tiles.filter fun t => t.1) []).mergeSort fun a b => decide (b.1 ≤ a.1)

/-! ## Initialization gate (`placeText` lines 346–353) -/

/-- `InitState` of the renderer. -/
inductive InitState where
  | Uninitialized
  | Initializing
  | Initialized
deriving DecidableEq, Repr

/-- The per-tile field read and cleared by `checkIfTextElementsChanged`. -/
structure RTile where
  id : Nat
  textElementsChanged : Bool
deriving DecidableEq, Repr

/-- `checkIfTextElementsChanged`: reports whether any rendered tile's element
set changed and clears every such flag while doing so. -/
def checkIfTextElementsChanged (tiles : List RTile) : Bool × List RTile :=
  (tiles.any fun t => t.textElementsChanged,
   tiles.map fun t => { t with textElementsChanged := false })

/-- The renderer fields touched by the lazy one-time initialization. -/
structure RendererInitFields where
  initState : InitState
  cacheInvalidated : Bool
  defaultAssetsInitialized : Bool
  canvasesLoading : Bool
deriving DecidableEq, Repr

/-- `TextElementsRenderer.initialize`: on the first call with text available
it moves to `Initializing`, invalidates the cache, initializes default assets
and kicks off the asynchronous canvas loading (whose completion callback runs
in a later microtask, never synchronously); the returned readiness is the
state read after these mutations. -/
def initializeRenderer (s : RendererInitFields) (textElementsAvailable : Bool) :
    Bool × RendererInitFields :=
  if s.initState = InitState.Uninitialized ∧ textElementsAvailable then
    (false,
      { initState := InitState.Initializing
        cacheInvalidated := true
        defaultAssetsInitialized := true
        canvasesLoading := true })
  else
    (decide (s.initState = InitState.Initialized), s)

/-- The entry of `placeText` up to its initialization gate: consume the tiles'
change flags, determine text availability, run the lazy initialization, and
report whether the rest of the frame work proceeds. -/
def placeTextGate (s : RendererInitFields) (tiles : List RTile) (hasOverlayText : Bool) :
    Bool × RendererInitFields × List RTile :=
  let r := checkIfTextElementsChanged tiles
  let textElementsAvailable := hasOverlayText || r.1
  let i := initializeRenderer s textElementsAvailable
  (i.1, i.2, r.2)

/-! ## Overload mode (`checkIfOverloaded`, `updateTextElementsFromSource`) -/

/-- Maximum recommended number of labels. -/
def OVERLOAD_LABEL_LIMIT : Nat := 20000

/-- Number of labels updated per frame in overload mode. -/
def OVERLOAD_UPDATED_LABEL_LIMIT : Nat := 100

/-- Time in milliseconds available for the update phase in overload mode. -/
def OVERLOAD_UPDATE_TIME_LIMIT : Int := 5

/-- Time in milliseconds available for placement in overload mode. -/
def OVERLOAD_PLACE_TIME_LIMIT : Int := 10

/-- The two per-tile element counts summed by `checkIfOverloaded`. -/
structure OTile where
  groupElementsCount : Nat
  userElementsCount : Nat
deriving DecidableEq, Repr

/-- Total `numTextElementsInScene` over all rendered tiles. -/
def numTextElementsInScene (tiles : List OTile) : Nat :=
  tiles.foldl (fun n t => n + t.groupElementsCount + t.userElementsCount) 0

/-- `TextElementsRenderer.checkIfOverloaded`: the new `m_overloaded` flag. -/
def checkIfOverloaded (tiles : List OTile) : Bool :=
  decide (numTextElementsInScene tiles > OVERLOAD_LABEL_LIMIT)

/-- Core loop of `updateTextElementsFromSource`: each priority bucket (given
as `(id, element count)`) is processed, then — only when an update start time
was taken, i.e. overloaded and dynamic — the elapsed wall time (oracle
`elapsed`, indexed by iteration) and the updated-element count are checked
and the loop breaks once either budget is hit.  Returns the ids of the
processed buckets. -/
def updateTextElementsFromSourceGo (timed : Bool) (elapsed : Nat → Int) :
    List (Nat × Nat) → Nat → Nat → List Nat
  | [], _, _ => []
  | (gid, cnt) :: rest, numUpdated, k =>
      gid ::
        (if timed then
          if decide (OVERLOAD_UPDATE_TIME_LIMIT > 0) &&
              decide (elapsed k > OVERLOAD_UPDATE_TIME_LIMIT) then
            []
          else
            let numUpdated' := numUpdated + cnt
            if decide (numUpdated' ≥ OVERLOAD_UPDATED_LABEL_LIMIT) then []
            else updateTextElementsFromSourceGo timed elapsed rest numUpdated' (k + 1)
        else updateTextElementsFromSourceGo timed elapsed rest numUpdated (k + 1))

/-- `updateTextElementsFromSource` with the start-time condition of
`updateTextElements` (line 951: a start time is taken iff overloaded and the
view is dynamic). -/
def updateTextElementsFromSource (overloaded isDynamic : Bool) (elapsed : Nat → Int)
    (sortedGroups : List (Nat × Nat)) : List Nat :=
  updateTextElementsFromSourceGo (overloaded && isDynamic) elapsed sortedGroups 0 0

/-! ## Placement (`placeTextElements`, `placeTextElementGroup`, label adders)

The external collaborators (screen projector, screen collisions, font
catalog, poi renderer, text canvas) are modelled by per-element oracle
fields; the control flow around them is translated from the source. -/

/-- The two placement passes. -/
inductive Pass where
  | persistentLabels
  | newLabels
deriving DecidableEq, Repr

/-- Per-character collision oracle of a path label: whether the character box
is on screen (`screenCollisions.isVisible`) and whether its space is taken
(`screenCollisions.isAllocated`). -/
structure CharBox where
  seen : Bool
  allocated : Bool
deriving DecidableEq, Repr

/-- Per-point oracle of a line marker: the projected screen position
(`none` ⇒ outside the view) and the `addPointLabel` outcome at that point. -/
structure MarkerPt where
  proj : Option (Int × Int)
  pointOk : Bool
deriving DecidableEq, Repr

/-- Collaborator-dependent data of the `add*Label` call for one element,
discriminated by the element type exactly as the `switch` in
`placeTextElementGroup`. -/
inductive AddSpec where
  | poi (projected : Bool) (pointOk : Bool)
  | lineMarker (prepOk : Bool) (shieldGroupIndex : Option Nat) (minDistance : Option Int)
      (pts : List MarkerPt)
  | path (textLen : Nat) (pathPts : List (Option (Int × Int))) (distanceOk : Bool)
      (fadeFarOk : Bool) (measureOk : Bool) (mayOverlap : Bool) (charBoxes : List CharBox)
deriving DecidableEq, Repr

/-- The element type encoded by the add data. -/
def AddSpec.etype : AddSpec → TextElementType
  | .poi _ _ => .PoiLabel
  | .lineMarker _ _ _ _ => .LineMarker
  | .path _ _ _ _ _ _ _ => .PathLabel

/-- Path-label text length (`textElement.text.length`). -/
def AddSpec.pathTextLen : AddSpec → Nat
  | .path n _ _ _ _ _ _ => n
  | _ => 0

/-- Path-label projected anchor points. -/
def AddSpec.pathAnchors : AddSpec → List (Option (Int × Int))
  | .path _ pts _ _ _ _ _ => pts
  | _ => []

/-- One element as seen by `placeTextElementGroup`: its state's placement
filter data plus the oracles of the later checks. -/
structure PElem where
  id : Nat
  initialized : Bool
  viewDistance : Option Int
  visible : Bool
  canvasReady : Bool
  hidden : Bool
  ready : Bool
  capacityOk : Bool
  add : AddSpec
deriving DecidableEq, Repr

/-- A cached group state as seen by the placement loop. -/
structure PGroup where
  priority : Int
  visited : Bool
  elements : List PElem
deriving DecidableEq, Repr

/-- Observable placement events: an element processed in a pass, an element
state reset, a render (with the number of `numRenderedTextElements`
increments it performed). -/
inductive PEvent where
  | attempt (pass : Pass) (priority : Int) (id : Nat)
  | reset (id : Nat)
  | render (id : Nat) (incr : Nat)
deriving DecidableEq, Repr

/-- Minimum number of pixels per character. -/
def MIN_AVERAGE_CHAR_WIDTH : Int := 5

/-- `TextElementsRenderer.checkForSmallLabels`: project the path points
(oracle results given), fail when no point is on screen, otherwise guess
whether the screen box can hold the text. -/
def checkForSmallLabels (textLen : Nat) (pts : List (Option (Int × Int))) : Bool :=
  let screenPoints := pts.filterMap id
  match screenPoints with
  | [] => false
  | p :: rest =>
      let minX := rest.foldl (fun m q => min m q.1) p.1
      let maxX := rest.foldl (fun m q => max m q.1) p.1
      let minY := rest.foldl (fun m q => min m q.2) p.2
      let maxY := rest.foldl (fun m q => max m q.2) p.2
      let boxDiagonalSq := (maxX - minX) ^ 2 + (maxY - minY) ^ 2
      let minScreenSpace := (textLen : Int) * MIN_AVERAGE_CHAR_WIDTH
      decide (boxDiagonalSq ≥ minScreenSpace ^ 2)

/-- Result of `addPathLabel`: rejected with the label state reset, rejected
keeping the state (a character collided), or placed. -/
inductive PathResult where
  | rejectedReset
  | rejectedKeep
  | placed
deriving DecidableEq, Repr

/-- `TextElementsRenderer.addPathLabel` control flow: far-distance test,
fade-far test, group-visited test, measurement, then the per-character
collision loop — any character box that is off screen, or allocated while
overlap is disallowed, rejects the whole label before any text is added. -/
def addPathLabel (groupVisited : Bool) (distanceOk fadeFarOk measureOk mayOverlap : Bool)
    (charBoxes : List CharBox) : PathResult :=
  if !distanceOk then .rejectedReset
  else if !fadeFarOk then .rejectedReset
  else if !groupVisited then .rejectedReset
  else if !measureOk then .rejectedReset
  else if charBoxes.any fun cb => !cb.seen || (!mayOverlap && cb.allocated) then .rejectedKeep
  else .placed

/-- `Math2D.distSquared`. -/
def math2dDistSquared (a b : Int × Int) : Int :=
  (a.1 - b.1) ^ 2 + (a.2 - b.2) ^ 2

/-- Shield-group branch of `addLineMarkerLabel`: place a marker at each
projected point that is not too close to an already placed marker of the
same shield group, recording placed screen positions. -/
def shieldFold (minDistanceSqr : Int) :
    List (Int × Int) → List MarkerPt → List (Int × Int) × Nat
  | grp, [] => (grp, 0)
  | grp, pt :: rest =>
      match pt.proj with
      | none => shieldFold minDistanceSqr grp rest
      | some p =>
          let tooClose := grp.any fun q => decide (math2dDistSquared q p < minDistanceSqr)
          if tooClose then shieldFold minDistanceSqr grp rest
          else if pt.pointOk then
            let r := shieldFold minDistanceSqr (grp ++ [p]) rest
            (r.1, r.2 + 1)
          else shieldFold minDistanceSqr grp rest

/-- Markers placed by the branch of `addLineMarkerLabel` without shield
groups: one per projected point whose `addPointLabel` succeeds. -/
def countPlacedMarkers (pts : List MarkerPt) : Nat :=
  (pts.filter fun pt => pt.proj.isSome && pt.pointOk).length

/-- `TextElementsRenderer.addLineMarkerLabel`: every placed marker point runs
`addPointLabel`, which bumps `numRenderedTextElements` once per success; the
returned count is the number of increments this one element performed. -/
def addLineMarkerLabel (prepOk : Bool) (shieldGroupIndex : Option Nat)
    (minDistance : Option Int) (pts : List MarkerPt)
    (shieldGroups : List (Nat × List (Int × Int))) :
    List (Nat × List (Int × Int)) × Nat :=
  if pts.isEmpty || !prepOk then (shieldGroups, 0)
  else
    let minDistanceSqr := match minDistance with
      | some d => d * d
      | none => 0
    match shieldGroupIndex with
    | some k =>
        let grp := (alookup shieldGroups k).getD []
        if minDistanceSqr > 0 then
          let r := shieldFold minDistanceSqr grp pts
          (aset shieldGroups k r.1, r.2)
        else
          (aset shieldGroups k grp, countPlacedMarkers pts)
    | none => (shieldGroups, countPlacedMarkers pts)

/-- Dispatch of the `switch (elementType)` at the end of the per-element loop:
runs the appropriate `add*Label` and reports the shield-group state, the
number of counter increments and the emitted events. -/
def runAdd (groupVisited : Bool) (shieldGroups : List (Nat × List (Int × Int)))
    (e : PElem) : List (Nat × List (Int × Int)) × Nat × List PEvent :=
  match e.add with
  | .poi projected pointOk =>
      if projected && pointOk then (shieldGroups, 1, [.render e.id 1])
      else (shieldGroups, 0, [])
  | .lineMarker prepOk idx minD pts =>
      let r := addLineMarkerLabel prepOk idx minD pts shieldGroups
      (r.1, r.2, if r.2 > 0 then [.render e.id r.2] else [])
  | .path _ _ dOk fOk mOk mov cbs =>
      match addPathLabel groupVisited dOk fOk mOk mov cbs with
      | .rejectedReset => (shieldGroups, 0, [.reset e.id])
      | .rejectedKeep => (shieldGroups, 0, [])
      | .placed => (shieldGroups, 1, [.render e.id 1])

/-- The pass-mismatch skip `(pass === PersistentLabels && !elementVisible) ||
(pass === NewLabels && elementVisible)`. -/
def passSkip (pass : Pass) (elementVisible : Bool) : Bool :=
  (pass == Pass.persistentLabels && !elementVisible) ||
    (pass == Pass.newLabels && elementVisible)

/-- Per-element loop of `placeTextElementGroup`: global label budget first,
then the filter skips (uninitialized, no view distance, wrong pass), then the
style/hidden/path-fit/loading/capacity skips, then the `add*Label` switch. -/
def placeGroupGo (maxNum : Int) (pass : Pass) (priority : Int) (groupVisited : Bool) :
    List PElem → Nat → List (Nat × List (Int × Int)) → Nat × Bool × List PEvent
  | [], counter, _ => (counter, true, [])
  | e :: rest, counter, shieldGroups =>
      if maxNum ≥ 0 ∧ (counter : Int) ≥ maxNum then (counter, false, [])
      else if !e.initialized then
        placeGroupGo maxNum pass priority groupVisited rest counter shieldGroups
      else if e.viewDistance.isNone then
        placeGroupGo maxNum pass priority groupVisited rest counter shieldGroups
      else if passSkip pass e.visible then
        placeGroupGo maxNum pass priority groupVisited rest counter shieldGroups
      else if !e.canvasReady then
        let r := placeGroupGo maxNum pass priority groupVisited rest counter shieldGroups
        (r.1, r.2.1, .attempt pass priority e.id :: r.2.2)
      else if e.hidden then
        let r := placeGroupGo maxNum pass priority groupVisited rest counter shieldGroups
        (r.1, r.2.1, .attempt pass priority e.id :: r.2.2)
      else if e.add.etype = TextElementType.PathLabel ∧
          checkForSmallLabels e.add.pathTextLen e.add.pathAnchors = false then
        let r := placeGroupGo maxNum pass priority groupVisited rest counter shieldGroups
        (r.1, r.2.1, .attempt pass priority e.id :: .reset e.id :: r.2.2)
      else if !e.ready then
        let r := placeGroupGo maxNum pass priority groupVisited rest counter shieldGroups
        (r.1, r.2.1, .attempt pass priority e.id :: r.2.2)
      else if !e.capacityOk then
        let r := placeGroupGo maxNum pass priority groupVisited rest counter shieldGroups
        (r.1, r.2.1, .attempt pass priority e.id :: r.2.2)
      else
        let a := runAdd groupVisited shieldGroups e
        let r := placeGroupGo maxNum pass priority groupVisited rest (counter + a.2.1) a.1
        (r.1, r.2.1, .attempt pass priority e.id :: (a.2.2 ++ r.2.2))

/-- `TextElementsRenderer.placeTextElementGroup`: returns the updated
`numRenderedTextElements`, whether the whole group was processed (`false` on
the budget early-return or when no text renderers are initialized), and the
events. -/
def placeTextElementGroup (renderersEmpty : Bool) (maxNum : Int) (pass : Pass)
    (g : PGroup) (counter : Nat) : Nat × Bool × List PEvent :=
  if renderersEmpty then (counter, false, [])
  else placeGroupGo maxNum pass g.priority g.visited g.elements counter []

/-- `TextElementsRenderer.placeNewTextElements`: run the new-labels pass over
a range of group states, stopping at the first group that was not fully
processed. -/
def placeNewTextElementsGo (renderersEmpty : Bool) (maxNum : Int) :
    List PGroup → Nat → Nat × List PEvent
  | [], counter => (counter, [])
  | g :: rest, counter =>
      let r := placeTextElementGroup renderersEmpty maxNum .newLabels g counter
      if r.2.1 then
        let r' := placeNewTextElementsGo renderersEmpty maxNum rest r.1
        (r'.1, r.2.2 ++ r'.2)
      else (r.1, r.2.2)

/-- `isPlacementTimeExceeded`: only ever true when a placement start time was
taken (overloaded and dynamic view); the wall clock is an oracle indexed by
the number of the check within the frame. -/
def isPlacementTimeExceeded (timed : Bool) (timeEx : Nat → Bool) (k : Nat) : Bool :=
  timed && decide (OVERLOAD_PLACE_TIME_LIMIT > 0) && timeEx k

/-- Priority of the first group of the current priority range. -/
def pendingPriority (pending : List PGroup) : Int :=
  match pending with
  | [] => 0
  | g :: _ => g.priority

/-- Main loop of `placeTextElements` over the priority-sorted group states.
`pending` holds the groups from `currentPriorityBegin` up to the current
index: at a priority boundary those groups get their new-labels pass; on any
break — budget or placement time limit — and at the loop end, the trailing
`placeNewTextElements(currentPriorityBegin, length)` runs over `pending` plus
all remaining groups. -/
def placeTextElementsGo (re : Bool) (maxNum : Int) (placeNew : Bool) (timed : Bool)
    (timeEx : Nat → Bool) :
    List PGroup → List PGroup → Nat → Nat → Nat × List PEvent
  | [], pending, counter, _ =>
      if placeNew then placeNewTextElementsGo re maxNum pending counter
      else (counter, [])
  | g :: rest, pending, counter, k =>
      if placeNew && !pending.isEmpty && pendingPriority pending != g.priority then
        let f := placeNewTextElementsGo re maxNum pending counter
        if isPlacementTimeExceeded timed timeEx k then
          let t := placeNewTextElementsGo re maxNum (pending ++ g :: rest) f.1
          (t.1, f.2 ++ t.2)
        else
          let pr := placeTextElementGroup re maxNum .persistentLabels g f.1
          if !pr.2.1 then
            let t := if placeNew then placeNewTextElementsGo re maxNum (g :: rest) pr.1
                     else (pr.1, [])
            (t.1, f.2 ++ pr.2.2 ++ t.2)
          else if isPlacementTimeExceeded timed timeEx (k + 1) then
            let t := if placeNew then placeNewTextElementsGo re maxNum (g :: rest) pr.1
                     else (pr.1, [])
            (t.1, f.2 ++ pr.2.2 ++ t.2)
          else
            let c := placeTextElementsGo re maxNum placeNew timed timeEx rest [g] pr.1 (k + 2)
            (c.1, f.2 ++ pr.2.2 ++ c.2)
      else
        let pr := placeTextElementGroup re maxNum .persistentLabels g counter
        if !pr.2.1 then
          let t := if placeNew then placeNewTextElementsGo re maxNum (pending ++ g :: rest) pr.1
                   else (pr.1, [])
          (t.1, pr.2.2 ++ t.2)
        else if isPlacementTimeExceeded timed timeEx k then
          let t := if placeNew then placeNewTextElementsGo re maxNum (pending ++ g :: rest) pr.1
                   else (pr.1, [])
          (t.1, pr.2.2 ++ t.2)
        else
          let c := placeTextElementsGo re maxNum placeNew timed timeEx rest (pending ++ [g]) pr.1 (k + 1)
          (c.1, pr.2.2 ++ c.2)

/-- `TextElementsRenderer.placeTextElements` for one frame: early return on an
empty cache, then the two interleaved passes over the sorted group states
with `numRenderedTextElements` starting at zero. -/
def placeTextElements (re : Bool) (maxNum : Int) (placeNew : Bool) (timed : Bool)
    (timeEx : Nat → Bool) (groupStates : List PGroup) : Nat × List PEvent :=
  if groupStates.isEmpty then (0, [])
  else placeTextElementsGo re maxNum placeNew timed timeEx groupStates [] 0 0

/-! ## Theorems -/

/-- Sum of the element counts of a list of priority buckets. -/
def bucketCountSum (l : List (Nat × Nat)) : Nat :=
  (l.map Prod.snd).sum

lemma updateTextElementsFromSourceGo_spec (elapsed : Nat → Int) :
    ∀ (gs : List (Nat × Nat)) (u k : Nat) (timed : Bool),
      ∃ m, m ≤ gs.length ∧
        updateTextElementsFromSourceGo timed elapsed gs u k = (gs.take m).map Prod.fst ∧
        (timed = false → m = gs.length) ∧
        (m < gs.length → timed = true ∧ ∃ j, m = j + 1 ∧
          (elapsed (k + j) > OVERLOAD_UPDATE_TIME_LIMIT ∨
           u + bucketCountSum (gs.take (j + 1)) ≥ OVERLOAD_UPDATED_LABEL_LIMIT)) := by
  intro gs
  induction gs with
  | nil =>
      intro u k timed
      exact ⟨0, by simp [updateTextElementsFromSourceGo]⟩
  | cons hd rest ih =>
      intro u k timed
      obtain ⟨gid, cnt⟩ := hd
      cases timed with
      | false =>
          obtain ⟨m, hm, heq, hfull, _⟩ := ih u (k + 1) false
          refine ⟨rest.length + 1, by simp, ?_, by simp, by simp⟩
          have hmlen : m = rest.length := hfull rfl
          subst hmlen
          simp [updateTextElementsFromSourceGo, heq]
      | true =>
          have hpos : decide (OVERLOAD_UPDATE_TIME_LIMIT > 0) = true := by decide
          by_cases htime : elapsed k > OVERLOAD_UPDATE_TIME_LIMIT
          · refine ⟨1, by simp, ?_, by simp, ?_⟩
            · simp [updateTextElementsFromSourceGo, hpos, htime]
            · intro _
              exact ⟨rfl, 0, rfl, Or.inl (by simpa using htime)⟩
          · by_cases hcnt : u + cnt ≥ OVERLOAD_UPDATED_LABEL_LIMIT
            · refine ⟨1, by simp, ?_, by simp, ?_⟩
              · simp [updateTextElementsFromSourceGo, hpos, htime, hcnt]
              · intro _
                refine ⟨rfl, 0, rfl, Or.inr ?_⟩
                simpa [bucketCountSum] using hcnt
            · obtain ⟨m, hm, heq, _, hstop⟩ := ih (u + cnt) (k + 1) true
              refine ⟨m + 1, by simp [Nat.succ_le_succ hm], ?_, by simp, ?_⟩
              · simp [updateTextElementsFromSourceGo, hpos, htime, hcnt, heq]
              · intro hlt
                have hmlt : m < rest.length := by
                  simp only [List.length_cons] at hlt
                  omega
                obtain ⟨_, j, hj, hcond⟩ := hstop hmlt
                refine ⟨rfl, j + 1, by omega, ?_⟩
                rcases hcond with h | h
                · exact Or.inl (by simpa [Nat.add_assoc, Nat.add_comm, Nat.add_left_comm] using h)
                · refine Or.inr ?_
                  have hsum : bucketCountSum ((gid, cnt) :: rest.take (j + 1)) =
                      cnt + bucketCountSum (rest.take (j + 1)) := by
                    simp [bucketCountSum]
                  simp only [List.take, hsum]
                  omega

/-- Claim C7: `checkIfOverloaded` sets the overloaded flag exactly when the
total text element count over all rendered tiles (group elements plus user
text elements) is strictly greater than 20000; and the update phase — time
boxed exactly when overloaded and the view is dynamic — processes a front
portion of the priority buckets, covers all of them when not in overload
mode, and stops early only because the elapsed-time or updated-count budget
tripped at the last processed bucket, leaving the remaining buckets
untouched. -/
theorem C7_overload_threshold_and_update_budget (tiles : List OTile)
    (overloaded isDynamic : Bool) (elapsed : Nat → Int)
    (sortedGroups : List (Nat × Nat)) :
    (checkIfOverloaded tiles = true ↔ numTextElementsInScene tiles > 20000) ∧
    ∃ m, m ≤ sortedGroups.length ∧
      updateTextElementsFromSource overloaded isDynamic elapsed sortedGroups =
        (sortedGroups.take m).map Prod.fst ∧
      (¬(overloaded = true ∧ isDynamic = true) → m = sortedGroups.length) ∧
      (m < sortedGroups.length →
        overloaded = true ∧ isDynamic = true ∧ ∃ j, m = j + 1 ∧
          (elapsed j > OVERLOAD_UPDATE_TIME_LIMIT ∨
           bucketCountSum (sortedGroups.take (j + 1)) ≥ OVERLOAD_UPDATED_LABEL_LIMIT)) := by
  constructor
  · simp [checkIfOverloaded, OVERLOAD_LABEL_LIMIT]
  · obtain ⟨m, hm, heq, hfull, hstop⟩ :=
      updateTextElementsFromSourceGo_spec elapsed sortedGroups 0 0 (overloaded && isDynamic)
    refine ⟨m, hm, heq, ?_, ?_⟩
    · intro h
      apply hfull
      cases overloaded <;> cases isDynamic <;> simp_all
    · intro hlt
      obtain ⟨htimed, j, hj, hcond⟩ := hstop hlt
      have hov : overloaded = true ∧ isDynamic = true := by
        cases overloaded <;> cases isDynamic <;> simp_all
      exact ⟨hov.1, hov.2, j, hj, by simpa using hcond⟩

/-- Witness for C7 at a concrete input: a scene of 25001 elements is
overloaded. -/
theorem C7_witness :
    checkIfOverloaded [⟨15000, 10001⟩] = true := by
  have h := C7_overload_threshold_and_update_budget [⟨15000, 10001⟩] true true
    (fun _ => 0) []
  exact h.1.mpr (by decide)

/-- Claim C9 (amended): until the one-time initialization has completed,
`placeText` does return before any cache or placement work — but it is not a
complete no-op: it consumes (clears) every rendered tile's
`textElementsChanged` flag, and the first call that sees text available
transitions the renderer to `Initializing`, sets the cache-invalidated flag
and initializes the default assets. -/
theorem C9_uninitialized_early_return (s : RendererInitFields) (tiles : List RTile)
    (hasOverlay : Bool) (h : s.initState ≠ InitState.Initialized) :
    (placeTextGate s tiles hasOverlay).1 = false ∧
    (placeTextGate s tiles hasOverlay).2.2 =
      tiles.map (fun t => { t with textElementsChanged := false }) ∧
    ((placeTextGate s tiles hasOverlay).2.1 = s ∨
      (placeTextGate s tiles hasOverlay).2.1 =
        { initState := InitState.Initializing, cacheInvalidated := true,
          defaultAssetsInitialized := true, canvasesLoading := true }) := by
  simp only [placeTextGate, initializeRenderer, checkIfTextElementsChanged]
  refine ⟨?_, by trivial, ?_⟩
  · split
    · rfl
    · simp [h]
  · split
    · exact Or.inr rfl
    · exact Or.inl rfl

/-- Witness for C9: a concrete uninitialized call returns early. -/
theorem C9_witness :
    (placeTextGate ⟨InitState.Uninitialized, false, false, false⟩ [⟨0, true⟩] false).1 =
      false := by
  exact (C9_uninitialized_early_return ⟨InitState.Uninitialized, false, false, false⟩
    [⟨0, true⟩] false (by decide)).1

/-- Claim C9 counterexample: with the renderer still uninitialized a
`placeText` call is not a no-op on observable state — the tile's
`textElementsChanged` flag is consumed and the renderer's cache-invalidated
flag (not part of the initialization state) is raised, even though the call
returns early (first conjunct). -/
theorem C9_counterexample :
    (placeTextGate ⟨InitState.Uninitialized, false, false, false⟩ [⟨0, true⟩] false).1 =
      false ∧
    (placeTextGate ⟨InitState.Uninitialized, false, false, false⟩ [⟨0, true⟩] false).2.2 ≠
      [⟨0, true⟩] ∧
    (placeTextGate ⟨InitState.Uninitialized, false, false, false⟩
        [⟨0, true⟩] false).2.1.cacheInvalidated = true := by
  decide

/-- Concrete element used to exhibit the `update` argument mismatch. -/
def c6Element : TextElement :=
  { id := 3, etype := .PoiLabel, text := "a", position := ⟨0, 0, 0⟩ }

/-- Concrete element state mid fade-in (100 of 800 ms elapsed at time 100). -/
def c6State : TextElementState :=
  { element := c6Element
    textRenderState := some { phase := .fadingIn, startTime := 0, opacity := 0,
                              lastFrameNumber := 0 }
    iconRenderStates := []
    viewDistance := some 1
    initialized := true }

/-- Concrete cache with one visited group owning the mid-fade state. -/
def c6Cache : TextElementStateCache :=
  { referenceMap := [(1, { group := { id := 1, priority := 0, elements := [c6Element] },
                           stateIds := [0], visited := true })]
    sorted := none
    dedup := { textMap := [], heap := [(0, c6State)] }
    nextStateId := 1 }

/-- Claim C6: the failing call, evaluated.  `placeText` (with
`updateTextElements = true` and the `disableFading` option `false`) forwards
`clearVisitedGroups` into the parameter slot `update` declares as
`disableFading` and the option into `findReplacements` (first conjunct, an
identity of the two call shapes); consequently the cached group's visited
flag is never cleared (second conjunct), and the mid-fade element is snapped
to fully visible as if fading were disabled, although only 100 of the 800
fade milliseconds have elapsed and fading was not disabled (third
conjunct). -/
theorem C6_code_bug_argument_mismatch :
    placeTextCacheUpdate c6Cache 100 true false =
      TextElementStateCache.update c6Cache 100 true false ∧
    (alookup (placeTextCacheUpdate c6Cache 100 true false).1.referenceMap 1).map
        TextElementGroupState.visited = some true ∧
    ((placeTextCacheUpdate c6Cache 100 true false).1.dedup.get 0).textRenderState =
      some { phase := .visible, startTime := 0, opacity := 1, lastFrameNumber := 0 } := by
  refine ⟨rfl, ?_, ?_⟩ <;> decide

/-! ### Association-list lemmas -/

lemma mem_aset {α : Type} (k : Nat) (v : α) :
    ∀ (l : List (Nat × α)) (p : Nat × α), p ∈ aset l k v → p = (k, v) ∨ p ∈ l := by
  intro l
  induction l with
  | nil =>
      intro p hp
      simp [aset] at hp
      exact Or.inl (by simp [hp])
  | cons hd rest ih =>
      intro p hp
      by_cases h : hd.1 == k
      · simp only [aset, h, if_true] at hp
        rcases List.mem_cons.mp hp with h1 | h1
        · exact Or.inl h1
        · exact Or.inr (List.mem_cons_of_mem _ h1)
      · simp only [aset, h, if_false] at hp
        rcases List.mem_cons.mp hp with h1 | h1
        · exact Or.inr (h1 ▸ List.mem_cons_self _ _)
        · rcases ih p h1 with h2 | h2
          · exact Or.inl h2
          · exact Or.inr (List.mem_cons_of_mem _ h2)

lemma alookup_mem {α : Type} :
    ∀ (l : List (Nat × α)) (k : Nat) (v : α), alookup l k = some v → (k, v) ∈ l := by
  intro l k v h
  unfold alookup at h
  cases hf : l.find? fun p => p.1 == k with
  | none => simp [hf] at h
  | some p =>
      simp [hf] at h
      have hp := List.find?_some hf
      have hm := List.mem_of_find?_eq_some hf
      have : p = (k, v) := by
        obtain ⟨p1, p2⟩ := p
        simp at hp
        simp at h
        simp [hp, h]
      exact this ▸ hm

lemma alookup_aset_self {α : Type} (k : Nat) (v : α) :
    ∀ l : List (Nat × α), alookup (aset l k v) k = some v := by
  intro l
  induction l with
  | nil => simp [aset, alookup, List.find?]
  | cons hd rest ih =>
      by_cases h : hd.1 == k
      · simp [aset, h, alookup, List.find?]
      · simp only [aset, h, if_false]
        simpa [alookup, List.find?, h] using ih

lemma length_aset_of_lookup {α : Type} (k : Nat) (v v' : α) :
    ∀ l : List (Nat × α), alookup l k = some v' → (aset l k v).length = l.length := by
  intro l
  induction l with
  | nil => intro h; simp [alookup, List.find?] at h
  | cons hd rest ih =>
      intro h
      by_cases hk : hd.1 == k
      · simp [aset, hk]
      · simp only [aset, hk, if_false, List.length_cons]
        have : alookup rest k = some v' := by
          simpa [alookup, List.find?, hk] using h
        simp [ih this]

lemma amodify_map_fst {α : Type} (k : Nat) (f : α → α) (l : List (Nat × α)) :
    (amodify l k f).map Prod.fst = l.map Prod.fst := by
  unfold amodify
  rw [List.map_map]
  apply List.map_congr_left
  intro p _
  simp only [Function.comp_apply]
  split <;> rfl

/-! ### Claim C10 -/

/-- The invariant of claim C10: every cached group state belongs to a
non-empty group. -/
def cacheNonEmptyInv (c : TextElementStateCache) : Prop :=
  ∀ p ∈ c.referenceMap, p.2.group.elements.length > 0

/-- The well-formedness of the lazily cached sorted view that the
`sortedGroupStates` getter asserts (`m_referenceMap.size ===
m_sortedGroupStates.length`). -/
def sortedViewWF (c : TextElementStateCache) : Prop :=
  ∀ l, c.sorted = some l → l.length = c.referenceMap.length

lemma collectGroups_nonempty :
    ∀ (gs : List TextElementGroup) (m : List (Int × List TextElementGroup)),
      (∀ b ∈ m, ∀ g' ∈ b.2, g'.elements.length > 0) →
      ∀ b ∈ collectGroups gs m, ∀ g' ∈ b.2, g'.elements.length > 0 := by
  intro gs
  induction gs with
  | nil => intro m hm; simpa [collectGroups] using hm
  | cons g rest ih =>
      intro m hm
      by_cases hlen : g.elements.length = 0
      · simpa [collectGroups, hlen] using ih m hm
      · have hg : g.elements.length > 0 := Nat.pos_of_ne_zero hlen
        have hstep : ∀ entry : List TextElementGroup,
            (∀ g' ∈ entry, g'.elements.length > 0) →
            ∀ b ∈ prioritySet m g.priority entry, ∀ g' ∈ b.2, g'.elements.length > 0 := by
          intro entry hentry
          have : ∀ (m' : List (Int × List TextElementGroup)),
              (∀ b ∈ m', ∀ g' ∈ b.2, g'.elements.length > 0) →
              ∀ b ∈ prioritySet m' g.priority entry, ∀ g' ∈ b.2, g'.elements.length > 0 := by
            intro m'
            induction m' with
            | nil =>
                intro _ b hb
                simp [prioritySet] at hb
                simpa [hb] using hentry
            | cons hd tl ihm =>
                intro hm' b hb
                by_cases hk : hd.1 == g.priority
                · simp only [prioritySet, hk, if_true] at hb
                  rcases List.mem_cons.mp hb with h1 | h1
                  · simpa [h1] using hentry
                  · exact hm' b (List.mem_cons_of_mem _ h1)
                · simp only [prioritySet, hk, if_false] at hb
                  rcases List.mem_cons.mp hb with h1 | h1
                  · exact h1 ▸ hm' hd (List.mem_cons_self _ _)
                  · exact ihm (fun b' hb' => hm' b' (List.mem_cons_of_mem _ hb')) b h1
          exact this m hm
        cases hlook : priorityLookup m g.priority with
        | none =>
            simp only [collectGroups, hlen, if_false, hlook]
            exact ih _ (hstep [g] (by simpa using hg))
        | some lst =>
            have hlst : ∀ g' ∈ lst, g'.elements.length > 0 := by
              intro g' hg'
              have hmem : (g.priority, lst) ∈ m := by
                unfold priorityLookup at hlook
                cases hf : m.find? fun p => p.1 == g.priority with
                | none => simp [hf] at hlook
                | some p =>
                    simp [hf] at hlook
                    have hp := List.find?_some hf
                    have hmm := List.mem_of_find?_eq_some hf
                    obtain ⟨p1, p2⟩ := p
                    simp at hp
                    simp at hlook
                    rw [hp, hlook] at hmm
                    exact hmm
              exact hm _ hmem g' hg'
            simp only [collectGroups, hlen, if_false, hlook]
            refine ih _ (hstep (lst ++ [g]) ?_)
            intro g' hg'
            rcases List.mem_append.mp hg' with h1 | h1
            · exact hlst g' h1
            · simpa [List.mem_singleton.mp h1] using hg

lemma collectTiles_nonempty :
    ∀ (tiles : List (Bool × List TextElementGroup)) (m : List (Int × List TextElementGroup)),
      (∀ b ∈ m, ∀ g' ∈ b.2, g'.elements.length > 0) →
      ∀ b ∈ collectTiles tiles m, ∀ g' ∈ b.2, g'.elements.length > 0 := by
  intro tiles
  induction tiles with
  | nil => intro m hm; simpa [collectTiles] using hm
  | cons t rest ih =>
      intro m hm
      simpa [collectTiles] using ih _ (collectGroups_nonempty t.2 m hm)

/-- Claim C10: the cache never holds an empty group — `prepareTextElementGroup`
skips empty groups before `getOrSet` (first conjunct, so the assert in the
private `set` never sees an empty group on this path), the non-empty-groups
cache invariant is preserved by `prepareTextElementGroup` (second),
`createSortedGroupsForSorting` emits only non-empty groups (third), and
whenever the cache is non-empty its `sortedGroupStates` view is non-empty, so
reading the priority of its first entry in `placeTextElements` is safe
(fourth). -/
theorem C10_no_empty_group_in_cache
    (c : TextElementStateCache) (g : TextElementGroup) (f : TextElementFilter)
    (hinv : cacheNonEmptyInv c) :
    (∀ (gid : Nat) (pr : Int) (f' : TextElementFilter),
        prepareTextElementGroup c ⟨gid, pr, []⟩ f' = c) ∧
    cacheNonEmptyInv (prepareTextElementGroup c g f) ∧
    (∀ tiles, ∀ b ∈ createSortedGroupsForSorting tiles, ∀ g' ∈ b.2,
        g'.elements.length > 0) ∧
    (∀ c' : TextElementStateCache, sortedViewWF c' → c'.referenceMap ≠ [] →
        TextElementStateCache.sortedGroupStates c' ≠ []) := by
  refine ⟨?_, ?_, ?_, ?_⟩
  · intro gid pr f'
    simp [prepareTextElementGroup]
  · by_cases hlen : g.elements.length = 0
    · simpa [prepareTextElementGroup, hlen] using hinv
    · simp only [prepareTextElementGroup, hlen, if_false]
      unfold TextElementStateCache.getOrSet
      cases hlook : alookup c.referenceMap g.id with
      | some gs =>
          intro p hp
          simp only at hp
          rcases mem_aset _ _ _ _ hp with h1 | h1
          · have := hinv _ (alookup_mem _ _ _ hlook)
            simpa [h1] using this
          · exact hinv _ h1
      | none =>
          intro p hp
          simp only at hp
          rcases mem_aset _ _ _ _ hp with h1 | h1
          · subst h1
            exact Nat.pos_of_ne_zero hlen
          · exact hinv _ h1
  · intro tiles b hb
    have hb' : b ∈ collectTiles (tiles.filter fun t => t.1) [] := by
      simpa [createSortedGroupsForSorting] using hb
    exact collectTiles_nonempty _ [] (by simp) b hb'
  · intro c' hwf hne
    unfold TextElementStateCache.sortedGroupStates
    cases hs : c'.sorted with
    | some l =>
        have hlen : l.length = c'.referenceMap.length := hwf l hs
        intro hcon
        simp only [] at hcon
        rw [hcon] at hlen
        simp at hlen
        exact hne (List.length_eq_zero.mp hlen.symm)
    | none =>
        intro hcon
        simp only [] at hcon
        have hlen : (c'.referenceMap.map Prod.snd).length = 0 := by
          have := congrArg List.length hcon
          simpa using this
        simp at hlen
        exact hne hlen

/-- Witness for C10: skipping a concrete empty group leaves a concrete cache
untouched. -/
theorem C10_witness :
    prepareTextElementGroup TextElementStateCache.empty ⟨5, 2, []⟩
      (fun _ _ dd => (none, dd)) = TextElementStateCache.empty := by
  exact (C10_no_empty_group_in_cache TextElementStateCache.empty ⟨5, 2, []⟩
    (fun _ _ dd => (none, dd))
    (by intro p hp; simp [TextElementStateCache.empty] at hp)).1 5 2 _

/-! ### Claim C5 -/

lemma updateElementsGo_heapIds (f : TextElementFilter)
    (hf : ∀ sid st dd, ((f sid st dd).2).heap.map Prod.fst = dd.heap.map Prod.fst) :
    ∀ (ids : List Nat) (dd : DedupState),
      (TextElementStateCache.updateElementsGo f ids dd).heap.map Prod.fst =
        dd.heap.map Prod.fst := by
  intro ids
  induction ids with
  | nil => intro dd; simp [TextElementStateCache.updateElementsGo]
  | cons sid rest ih =>
      intro dd
      simp only [TextElementStateCache.updateElementsGo]
      rw [ih]
      simp only [DedupState.modify]
      rw [amodify_map_fst]
      exact hf sid (dd.get sid) dd

/-- Claim C5: calling `getOrSet` twice in the same cycle with the same group
returns the same group state object both times (same group, same owned state
references; the second call reports a cache hit), creates or duplicates no
element states (the state store's ids are unchanged by the second call), and
leaves the cache size unchanged. -/
theorem C5_getOrSet_idempotent (c : TextElementStateCache) (g : TextElementGroup)
    (f : TextElementFilter) (hne : g.elements ≠ [])
    (hf : ∀ sid st dd, ((f sid st dd).2).heap.map Prod.fst = dd.heap.map Prod.fst) :
    (TextElementStateCache.getOrSet (TextElementStateCache.getOrSet c g f).2.2 g f).2.1 =
      true ∧
    (TextElementStateCache.getOrSet (TextElementStateCache.getOrSet c g f).2.2 g f).1.group =
      (TextElementStateCache.getOrSet c g f).1.group ∧
    (TextElementStateCache.getOrSet
        (TextElementStateCache.getOrSet c g f).2.2 g f).1.stateIds =
      (TextElementStateCache.getOrSet c g f).1.stateIds ∧
    (TextElementStateCache.getOrSet
        (TextElementStateCache.getOrSet c g f).2.2 g f).2.2.referenceMap.length =
      (TextElementStateCache.getOrSet c g f).2.2.referenceMap.length ∧
    (TextElementStateCache.getOrSet
        (TextElementStateCache.getOrSet c g f).2.2 g f).2.2.dedup.heap.map Prod.fst =
      (TextElementStateCache.getOrSet c g f).2.2.dedup.heap.map Prod.fst := by
  have key : ∀ (c1 : TextElementStateCache) (gs1 : TextElementGroupState),
      alookup c1.referenceMap g.id = some gs1 →
      (TextElementStateCache.getOrSet c1 g f).2.1 = true ∧
      (TextElementStateCache.getOrSet c1 g f).1.group = gs1.group ∧
      (TextElementStateCache.getOrSet c1 g f).1.stateIds = gs1.stateIds ∧
      (TextElementStateCache.getOrSet c1 g f).2.2.referenceMap.length =
        c1.referenceMap.length ∧
      (TextElementStateCache.getOrSet c1 g f).2.2.dedup.heap.map Prod.fst =
        c1.dedup.heap.map Prod.fst := by
    intro c1 gs1 hlook
    unfold TextElementStateCache.getOrSet
    rw [hlook]
    refine ⟨rfl, rfl, rfl, ?_, ?_⟩
    · exact length_aset_of_lookup _ _ _ _ hlook
    · exact updateElementsGo_heapIds f hf _ _
  cases hlook : alookup c.referenceMap g.id with
  | some gs =>
      have h1 : (TextElementStateCache.getOrSet c g f).1 = { gs with visited := true } ∧
          alookup (TextElementStateCache.getOrSet c g f).2.2.referenceMap g.id =
            some { gs with visited := true } := by
        unfold TextElementStateCache.getOrSet
        rw [hlook]
        exact ⟨rfl, alookup_aset_self _ _ _⟩
      obtain ⟨hfst, hlook2⟩ := h1
      obtain ⟨w1, w2, w3, w4, w5⟩ := key _ _ hlook2
      exact ⟨w1, by rw [w2, hfst], by rw [w3, hfst], w4, w5⟩
  | none =>
      have h1 : (TextElementStateCache.getOrSet c g f).1 =
          { group := g,
            stateIds := (TextElementStateCache.buildStates f g.elements c.dedup
              c.nextStateId).1,
            visited := false } ∧
          alookup (TextElementStateCache.getOrSet c g f).2.2.referenceMap g.id =
            some { group := g,
                   stateIds := (TextElementStateCache.buildStates f g.elements c.dedup
                     c.nextStateId).1,
                   visited := false } := by
        unfold TextElementStateCache.getOrSet
        rw [hlook]
        exact ⟨rfl, alookup_aset_self _ _ _⟩
      obtain ⟨hfst, hlook2⟩ := h1
      obtain ⟨w1, w2, w3, w4, w5⟩ := key _ _ hlook2
      exact ⟨w1, by rw [w2, hfst], by rw [w3, hfst], w4, w5⟩

/-- Witness for C5 at a concrete cache, group and filter. -/
theorem C5_witness :
    (TextElementStateCache.getOrSet
      (TextElementStateCache.getOrSet TextElementStateCache.empty
        ⟨1, 0, [{ id := 0, etype := .PoiLabel, text := "a", position := ⟨0, 0, 0⟩ }]⟩
        (fun _ _ dd => (none, dd))).2.2
      ⟨1, 0, [{ id := 0, etype := .PoiLabel, text := "a", position := ⟨0, 0, 0⟩ }]⟩
      (fun _ _ dd => (none, dd))).2.1 = true := by
  exact (C5_getOrSet_idempotent TextElementStateCache.empty
    ⟨1, 0, [{ id := 0, etype := .PoiLabel, text := "a", position := ⟨0, 0, 0⟩ }]⟩
    (fun _ _ dd => (none, dd)) (by simp) (fun _ _ _ => rfl)).1

/-! ### Claim C4 -/

/-- Duplicate proximity test of `findDuplicate`: the candidate behind `cid`
lies within the fixed squared-distance threshold of the element of `st`. -/
def nearDuplicate (dd : DedupState) (st : TextElementState) (cid : Nat) : Prop :=
  (dd.get cid).element.position.distanceToSquared st.element.position <
    MAX_LABEL_DUPLICATE_DIST_SQ

instance (dd : DedupState) (st : TextElementState) (cid : Nat) :
    Decidable (nearDuplicate dd st cid) := by
  unfold nearDuplicate
  infer_instance

/-- Claim C4: `deduplicateElement` (i) passes every non-point label through
unchanged; (ii) with no same-text candidates it registers the state as sole
candidate and survives; (iii) with same-text candidates all beyond the fixed
squared-distance threshold it appends the state and survives; (iv) at the
first candidate within the threshold, the new element survives, is
substituted for the cached candidate and the old candidate's fade state is
reset exactly when the cached candidate is not visible while the new element
is — and the substitution keeps exactly one tracked candidate (same entry
length); otherwise the new element is suppressed with no state change. -/
theorem C4_deduplicateElement_cases (dd : DedupState) (sid : Nat)
    (st : TextElementState) :
    (st.element.etype ≠ TextElementType.PoiLabel →
      deduplicateElement dd sid st = (true, dd)) ∧
    (st.element.etype = TextElementType.PoiLabel →
      dd.textLookup st.element.text = none →
      deduplicateElement dd sid st = (true, dd.textSet st.element.text [sid])) ∧
    (∀ entry, st.element.etype = TextElementType.PoiLabel →
      dd.textLookup st.element.text = some entry →
      (∀ cid ∈ entry, ¬nearDuplicate dd st cid) →
      deduplicateElement dd sid st =
        (true, dd.textSet st.element.text (entry ++ [sid]))) ∧
    (∀ entry i (h : i < entry.length),
      st.element.etype = TextElementType.PoiLabel →
      dd.textLookup st.element.text = some entry →
      nearDuplicate dd st entry[i] →
      (∀ j (hj : j < i), ¬nearDuplicate dd st (entry.get ⟨j, Nat.lt_trans hj h⟩)) →
      ((¬(dd.get entry[i]).visible = true ∧ st.visible = true →
          deduplicateElement dd sid st =
            (true, (dd.textSet st.element.text (entry.set i sid)).modify entry[i]
              TextElementState.reset) ∧
          (entry.set i sid).length = entry.length) ∧
        (¬(¬(dd.get entry[i]).visible = true ∧ st.visible = true) →
          deduplicateElement dd sid st = (false, dd)))) := by
  refine ⟨?_, ?_, ?_, ?_⟩
  · intro h
    simp [deduplicateElement, h]
  · intro h hnone
    simp [deduplicateElement, h, findDuplicate, hnone]
  · intro entry h hsome hfar
    have hidx : (entry.findIdx? fun cid =>
        decide (((dd.get cid).element.position.distanceToSquared st.element.position) <
          MAX_LABEL_DUPLICATE_DIST_SQ)) = none := by
      rw [List.findIdx?_eq_none_iff]
      intro cid hc
      simpa [nearDuplicate] using hfar cid hc
    simp [deduplicateElement, h, findDuplicate, hsome, hidx]
  · intro entry i h hpoi hsome hnear hfar
    have hidx : (entry.findIdx? fun cid =>
        decide (((dd.get cid).element.position.distanceToSquared st.element.position) <
          MAX_LABEL_DUPLICATE_DIST_SQ)) = some i := by
      rw [List.findIdx?_eq_some_iff_getElem]
      refine ⟨h, by simpa [nearDuplicate] using hnear, ?_⟩
      intro j hj
      simpa [nearDuplicate] using hfar j hj
    have hgetd : entry[i]?.getD 0 = entry[i] := by
      simp [List.getElem?_eq_getElem h]
    constructor
    · intro hcase
      have hvis : ((dd.get entry[i]).visible = false) := by
        cases hv : (dd.get entry[i]).visible with
        | false => rfl
        | true => exact absurd hv hcase.1
      constructor
      · simp [deduplicateElement, hpoi, findDuplicate, hsome, hidx, hgetd, hvis, hcase.2]
      · simp
    · intro hcase
      by_cases hv : (dd.get entry[i]).visible = true
      · simp [deduplicateElement, hpoi, findDuplicate, hsome, hidx, hgetd, hv]
      · have hstv : st.visible = false := by
          cases hsv : st.visible with
          | false => rfl
          | true => exact absurd ⟨hv, hsv⟩ hcase
        simp [deduplicateElement, hpoi, findDuplicate, hsome, hidx, hgetd, hv, hstv]

/-- Witness for C4: a concrete non-point label survives with no state
change. -/
theorem C4_witness :
    deduplicateElement ⟨[], []⟩ 0
      { element := { id := 0, etype := .PathLabel, text := "a", position := ⟨0, 0, 0⟩ }
        textRenderState := none
        iconRenderStates := []
        viewDistance := none
        initialized := false } = (true, ⟨[], []⟩) := by
  exact (C4_deduplicateElement_cases ⟨[], []⟩ 0
    { element := { id := 0, etype := .PathLabel, text := "a", position := ⟨0, 0, 0⟩ }
      textRenderState := none
      iconRenderStates := []
      viewDistance := none
      initialized := false }).1 (by decide)

/-! ### Claim C1 -/

/-- The sequence of per-group `updateFading` results of one `update` pass, in
map iteration order (the same sequential fold over the shared state store as
`updateCoreGo`, projected to the returned visibility booleans). -/
def updateVisFlags (time : Int) (df : Bool) (fr : Bool) :
    List (Nat × TextElementGroupState) → DedupState → List Bool
  | [], _ => []
  | (_, gs) :: rest, dd =>
      let u := gs.updateFading dd time df (fr && !gs.visited)
      u.2 :: updateVisFlags time df fr rest u.1

lemma updateCoreGo_kept (time : Int) (df fr : Bool) :
    ∀ (l : List (Nat × TextElementGroupState)) (dd : DedupState),
      (TextElementStateCache.updateCoreGo time df fr l dd).1 =
        ((l.zip (updateVisFlags time df fr l dd)).filter fun p =>
          p.2 || p.1.2.visited).map Prod.fst := by
  intro l
  induction l with
  | nil => intro dd; simp [TextElementStateCache.updateCoreGo, updateVisFlags]
  | cons hd rest ih =>
      intro dd
      obtain ⟨gid, gs⟩ := hd
      simp only [TextElementStateCache.updateCoreGo, updateVisFlags, List.zip_cons_cons,
        List.filter_cons]
      by_cases hkeep : ((gs.updateFading dd time df (fr && !gs.visited)).2 || gs.visited) = true
      · simp [hkeep, ih]
      · simp only [Bool.not_eq_true] at hkeep
        simp [hkeep, ih]

lemma updateCoreGo_any (time : Int) (df fr : Bool) :
    ∀ (l : List (Nat × TextElementGroupState)) (dd : DedupState),
      (TextElementStateCache.updateCoreGo time df fr l dd).2.2.2 =
        (l.zip (updateVisFlags time df fr l dd)).any fun p =>
          !(p.2 || p.1.2.visited) := by
  intro l
  induction l with
  | nil => intro dd; simp [TextElementStateCache.updateCoreGo, updateVisFlags]
  | cons hd rest ih =>
      intro dd
      obtain ⟨gid, gs⟩ := hd
      simp only [TextElementStateCache.updateCoreGo, updateVisFlags, List.zip_cons_cons,
        List.any_cons]
      rw [ih]
      exact Bool.or_comm _ _

lemma zip_key_unique {l : List (Nat × TextElementGroupState)}
    (hnd : (l.map Prod.fst).Nodup) :
    ∀ flags : List Bool, ∀ p ∈ l.zip flags, ∀ q ∈ l.zip flags, p.1.1 = q.1.1 → p = q := by
  induction l with
  | nil => intro flags p hp; simp at hp
  | cons x l' ih =>
      intro flags p hp q hq hpq
      cases flags with
      | nil => simp at hp
      | cons b fl =>
          simp only [List.zip_cons_cons] at hp hq
          have hnd' : (l'.map Prod.fst).Nodup := (List.nodup_cons.mp hnd).2
          have hx : x.1 ∉ l'.map Prod.fst := by
            simpa using (List.nodup_cons.mp hnd).1
          rcases List.mem_cons.mp hp with h1 | h1 <;>
            rcases List.mem_cons.mp hq with h2 | h2
          · rw [h1, h2]
          · exfalso
            apply hx
            have := (List.of_mem_zip h2).1
            have hkey : q.1.1 ∈ l'.map Prod.fst := List.mem_map_of_mem _ this
            rw [h1] at hpq
            simpa [← hpq] using hkey
          · exfalso
            apply hx
            have := (List.of_mem_zip h1).1
            have hkey : p.1.1 ∈ l'.map Prod.fst := List.mem_map_of_mem _ this
            rw [h2] at hpq
            simpa [hpq] using hkey
          · exact ih hnd' fl p h1 q h2 hpq

/-- Claim C1: after `TextElementStateCache.update`, a cached group survives
iff its `updateFading` result reported it visible or its visited flag was set
— equivalently, it is evicted iff it is invisible and unvisited (so a
visited-but-invisible group is retained); `update` returns `true` iff at
least one group was evicted; and a `true` return forces the scheduler's
new-label placement pass. -/
theorem C1_update_eviction_iff (c : TextElementStateCache) (t : Int) (df fr : Bool)
    (hnd : (c.referenceMap.map Prod.fst).Nodup) :
    ((TextElementStateCache.update c t df fr).2 = true ↔
      ∃ p ∈ c.referenceMap.zip (updateVisFlags t df fr c.referenceMap c.dedup),
        (p.2 || p.1.2.visited) = false) ∧
    (∀ p ∈ c.referenceMap.zip (updateVisFlags t df fr c.referenceMap c.dedup),
      ((∃ gs', (p.1.1, gs') ∈ (TextElementStateCache.update c t df fr).1.referenceMap) ↔
        (p.2 || p.1.2.visited) = true)) ∧
    (∀ u fc : Bool, (TextElementStateCache.update c t df fr).2 = true →
      placeNewTextElementsFlag u (TextElementStateCache.update c t df fr).2 fc = true) := by
  refine ⟨?_, ?_, ?_⟩
  · unfold TextElementStateCache.update
    simp only [updateCoreGo_any t df fr c.referenceMap c.dedup, List.any_eq_true]
    constructor
    · rintro ⟨p, hp, hcond⟩
      exact ⟨p, hp, by simpa using hcond⟩
    · rintro ⟨p, hp, hcond⟩
      exact ⟨p, hp, by simpa using hcond⟩
  · intro p hp
    unfold TextElementStateCache.update
    simp only [updateCoreGo_kept t df fr c.referenceMap c.dedup]
    constructor
    · rintro ⟨gs', hmem⟩
      rcases List.mem_map.mp hmem with ⟨q, hqf, hq1⟩
      rcases List.mem_filter.mp hqf with ⟨hqz, hqp⟩
      have hkeys : p.1.1 = q.1.1 := by rw [hq1]
      have := zip_key_unique hnd _ p hp q hqz hkeys
      rw [this]
      exact hqp
    · intro hcond
      refine ⟨p.1.2, ?_⟩
      apply List.mem_map.mpr
      exact ⟨p, List.mem_filter.mpr ⟨hp, hcond⟩, rfl⟩
  · intro u fc h
    simp [placeNewTextElementsFlag, h]

/-- Concrete group state retained in the C1 witness (visited, invisible). -/
def c1Kept : TextElementGroupState :=
  { group := { id := 1, priority := 0, elements := [] }, stateIds := [], visited := true }

/-- Concrete group state evicted in the C1 witness (unvisited, invisible). -/
def c1Gone : TextElementGroupState :=
  { group := { id := 2, priority := 0, elements := [] }, stateIds := [], visited := false }

/-- Concrete cache of the C1 witness. -/
def c1Cache : TextElementStateCache :=
  { referenceMap := [(1, c1Kept), (2, c1Gone)]
    sorted := none
    dedup := ⟨[], []⟩
    nextStateId := 0 }

/-- Witness for C1: on a concrete cache holding one visited-but-invisible
group and one unvisited invisible group, the update reports an eviction and
the visited group is retained. -/
theorem C1_witness :
    (TextElementStateCache.update c1Cache 0 false false).2 = true ∧
    ∃ gs', (1, gs') ∈ (TextElementStateCache.update c1Cache 0 false false).1.referenceMap := by
  have h := C1_update_eviction_iff c1Cache 0 false false (by decide)
  constructor
  · apply h.1.mpr
    exact ⟨((2, c1Gone), false), by decide, rfl⟩
  · exact (h.2.1 ((1, c1Kept), false) (by decide)).mpr rfl

/-! ### Claim C3 -/

/-- Render events mark elements that performed `numRenderedTextElements`
increments. -/
def isRenderEvent : PEvent → Bool
  | .render _ _ => true
  | _ => false

/-- Number of render events (elements actually placed) in a trace. -/
def rendersCount (evs : List PEvent) : Nat :=
  evs.countP isRenderEvent

/-- Line-marker discriminator. -/
def AddSpec.isLineMarkerAdd : AddSpec → Bool
  | .lineMarker _ _ _ _ => true
  | _ => false

lemma runAdd_renders_le (gv : Bool) (sh : List (Nat × List (Int × Int))) (e : PElem) :
    rendersCount (runAdd gv sh e).2.2 ≤ 1 ∧
    rendersCount (runAdd gv sh e).2.2 ≤ (runAdd gv sh e).2.1 := by
  unfold runAdd
  cases e.add with
  | poi projected pointOk =>
      by_cases h : projected && pointOk <;>
        simp [h, rendersCount, List.countP_cons, isRenderEvent]
  | lineMarker prepOk idx minD pts =>
      by_cases h : (addLineMarkerLabel prepOk idx minD pts sh).2 > 0 <;>
        simp [h, rendersCount, List.countP_cons, isRenderEvent] <;> omega
  | path n pts dOk fOk mOk mov cbs =>
      cases hres : addPathLabel gv dOk fOk mOk mov cbs <;>
        simp [hres, rendersCount, List.countP_cons, isRenderEvent]

lemma runAdd_incr_le_one (gv : Bool) (sh : List (Nat × List (Int × Int))) (e : PElem)
    (h : e.add.isLineMarkerAdd = false) : (runAdd gv sh e).2.1 ≤ 1 := by
  unfold runAdd
  cases hadd : e.add with
  | poi projected pointOk =>
      by_cases hp : projected && pointOk <;> simp [hp]
  | lineMarker prepOk idx minD pts =>
      rw [hadd] at h
      simp [AddSpec.isLineMarkerAdd] at h
  | path n pts dOk fOk mOk mov cbs =>
      cases hres : addPathLabel gv dOk fOk mOk mov cbs <;> simp [hres]

lemma seg_comp {c0 c1 c2 : Nat} {N : Int} {r1 r2 : Nat}
    (h1 : (r1 : Int) ≤ min (c1 : Int) N - min (c0 : Int) N)
    (h2 : (r2 : Int) ≤ min (c2 : Int) N - min (c1 : Int) N) :
    ((r1 + r2 : Nat) : Int) ≤ min (c2 : Int) N - min (c0 : Int) N := by
  push_cast
  omega

lemma placeGroupGo_spec (maxNum : Int) (pass : Pass) (pr : Int) (gv : Bool) :
    ∀ (elems : List PElem) (counter : Nat) (sh : List (Nat × List (Int × Int))),
      counter ≤ (placeGroupGo maxNum pass pr gv elems counter sh).1 ∧
      (0 ≤ maxNum →
        (rendersCount (placeGroupGo maxNum pass pr gv elems counter sh).2.2 : Int) ≤
          min ((placeGroupGo maxNum pass pr gv elems counter sh).1 : Int) maxNum -
            min (counter : Int) maxNum) ∧
      ((∀ e ∈ elems, e.add.isLineMarkerAdd = false) → 0 ≤ maxNum →
        (counter : Int) ≤ maxNum →
        ((placeGroupGo maxNum pass pr gv elems counter sh).1 : Int) ≤ maxNum) := by
  intro elems
  induction elems with
  | nil =>
      intro counter sh
      refine ⟨le_refl _, ?_, ?_⟩
      · intro hm
        simp [placeGroupGo, rendersCount]
      · intro _ _ h
        simpa [placeGroupGo] using h
  | cons e rest ih =>
      intro counter sh
      have skipStep : ∀ sh' : List (Nat × List (Int × Int)),
          counter ≤ (placeGroupGo maxNum pass pr gv rest counter sh').1 ∧
          (0 ≤ maxNum →
            (rendersCount (placeGroupGo maxNum pass pr gv rest counter sh').2.2 : Int) ≤
              min ((placeGroupGo maxNum pass pr gv rest counter sh').1 : Int) maxNum -
                min (counter : Int) maxNum) ∧
          ((∀ x ∈ e :: rest, x.add.isLineMarkerAdd = false) → 0 ≤ maxNum →
            (counter : Int) ≤ maxNum →
            ((placeGroupGo maxNum pass pr gv rest counter sh').1 : Int) ≤ maxNum) := by
        intro sh'
        obtain ⟨m1, m2, m3⟩ := ih counter sh'
        exact ⟨m1, m2, fun hno hm hc =>
          m3 (fun x hx => hno x (List.mem_cons_of_mem _ hx)) hm hc⟩
      simp only [placeGroupGo]
      by_cases hb : maxNum ≥ 0 ∧ (counter : Int) ≥ maxNum
      · rw [if_pos hb]
        refine ⟨le_refl _, ?_, ?_⟩
        · intro hm
          simp [rendersCount]
        · intro _ _ h
          exact h
      · rw [if_neg hb]
        cases hinit : e.initialized with
        | false =>
            simp only [Bool.not_false, if_true]
            exact skipStep sh
        | true =>
        simp only [Bool.not_true, Bool.false_eq_true, if_false]
        by_cases hvd : e.viewDistance.isNone
        · rw [if_pos hvd]
          exact skipStep sh
        · rw [if_neg hvd]
          by_cases hpass : passSkip pass e.visible = true
          · rw [if_pos hpass]
            exact skipStep sh
          · rw [if_neg hpass]
            cases hcr : e.canvasReady with
            | false =>
                simp only [Bool.not_false, if_true]
                obtain ⟨m1, m2, m3⟩ := skipStep sh
                refine ⟨m1, ?_, m3⟩
                intro hm
                simpa [rendersCount, List.countP_cons, isRenderEvent] using m2 hm
            | true =>
            simp only [Bool.not_true, Bool.false_eq_true, if_false]
            cases hh : e.hidden with
            | true =>
                simp only [if_true]
                obtain ⟨m1, m2, m3⟩ := skipStep sh
                refine ⟨m1, ?_, m3⟩
                intro hm
                simpa [rendersCount, List.countP_cons, isRenderEvent] using m2 hm
            | false =>
            simp only [Bool.false_eq_true, if_false]
            by_cases hsmall : e.add.etype = TextElementType.PathLabel ∧
                checkForSmallLabels e.add.pathTextLen e.add.pathAnchors = false
            · rw [if_pos hsmall]
              obtain ⟨m1, m2, m3⟩ := skipStep sh
              refine ⟨m1, ?_, m3⟩
              intro hm
              simpa [rendersCount, List.countP_cons, isRenderEvent] using m2 hm
            · rw [if_neg hsmall]
              cases hrdy : e.ready with
              | false =>
                  simp only [Bool.not_false, if_true]
                  obtain ⟨m1, m2, m3⟩ := skipStep sh
                  refine ⟨m1, ?_, m3⟩
                  intro hm
                  simpa [rendersCount, List.countP_cons, isRenderEvent] using m2 hm
              | true =>
              simp only [Bool.not_true, Bool.false_eq_true, if_false]
              cases hcap : e.capacityOk with
              | false =>
                  simp only [Bool.not_false, if_true]
                  obtain ⟨m1, m2, m3⟩ := skipStep sh
                  refine ⟨m1, ?_, m3⟩
                  intro hm
                  simpa [rendersCount, List.countP_cons, isRenderEvent] using m2 hm
              | true =>
              simp only [Bool.not_true, Bool.false_eq_true, if_false]
              obtain ⟨m1, m2, m3⟩ :=
                ih (counter + (runAdd gv sh e).2.1) (runAdd gv sh e).1
              have hra := runAdd_renders_le gv sh e
              refine ⟨le_trans (Nat.le_add_right _ _) m1, ?_, ?_⟩
              · intro hm
                have hrc := m2 hm
                have hcnt : (counter : Int) < maxNum := by
                  rcases not_and_or.mp hb with h | h
                  · omega
                  · omega
                have hmono : counter + (runAdd gv sh e).2.1 ≤
                    (placeGroupGo maxNum pass pr gv rest
                      (counter + (runAdd gv sh e).2.1) (runAdd gv sh e).1).1 := m1
                simp only [rendersCount, List.countP_cons, List.countP_append,
                  isRenderEvent] at *
                push_cast at *
                omega
              · intro hno hm hc
                have hincr : (runAdd gv sh e).2.1 ≤ 1 :=
                  runAdd_incr_le_one gv sh e (hno e (List.mem_cons_self _ _))
                have hcnt : (counter : Int) < maxNum := by
                  rcases not_and_or.mp hb with h | h
                  · omega
                  · omega
                refine m3 (fun x hx => hno x (List.mem_cons_of_mem _ hx)) hm ?_
                push_cast
                omega

/-- No line-marker elements anywhere in the given groups. -/
def NoLMGroups (gs : List PGroup) : Prop :=
  ∀ g ∈ gs, ∀ e ∈ g.elements, e.add.isLineMarkerAdd = false

/-- Budget bookkeeping for one placement segment: the counter is monotone,
the number of placed elements is bounded by the clamped counter progress, and
without line markers the counter never passes the budget. -/
def SegSpec (maxNum : Int) (lm : Prop) (c0 c1 : Nat) (evs : List PEvent) : Prop :=
  c0 ≤ c1 ∧
  (0 ≤ maxNum →
    (rendersCount evs : Int) ≤ min (c1 : Int) maxNum - min (c0 : Int) maxNum) ∧
  (lm → 0 ≤ maxNum → (c0 : Int) ≤ maxNum → (c1 : Int) ≤ maxNum)

lemma SegSpec.comp {maxNum : Int} {lm : Prop} {c0 c1 c2 : Nat} {evs1 evs2 : List PEvent}
    (h1 : SegSpec maxNum lm c0 c1 evs1) (h2 : SegSpec maxNum lm c1 c2 evs2) :
    SegSpec maxNum lm c0 c2 (evs1 ++ evs2) := by
  obtain ⟨a1, b1, d1⟩ := h1
  obtain ⟨a2, b2, d2⟩ := h2
  refine ⟨le_trans a1 a2, ?_, fun hlm hm hc => d2 hlm hm (d1 hlm hm hc)⟩
  intro hm
  have hb1 := b1 hm
  have hb2 := b2 hm
  simp only [rendersCount, List.countP_append] at *
  push_cast at *
  omega

lemma SegSpec.weaken {maxNum : Int} {lm lm' : Prop} {c0 c1 : Nat} {evs : List PEvent}
    (h : SegSpec maxNum lm c0 c1 evs) (himp : lm' → lm) :
    SegSpec maxNum lm' c0 c1 evs :=
  ⟨h.1, h.2.1, fun hlm hm hc => h.2.2 (himp hlm) hm hc⟩

lemma SegSpec.nilEvs {maxNum : Int} {lm : Prop} {c0 : Nat} :
    SegSpec maxNum lm c0 c0 [] := by
  refine ⟨le_refl _, ?_, fun _ _ h => h⟩
  intro hm
  simp only [rendersCount, List.countP_nil]
  omega

lemma placeTextElementGroup_seg (re : Bool) (maxNum : Int) (pass : Pass) (g : PGroup)
    (counter : Nat) :
    SegSpec maxNum (∀ e ∈ g.elements, e.add.isLineMarkerAdd = false) counter
      (placeTextElementGroup re maxNum pass g counter).1
      (placeTextElementGroup re maxNum pass g counter).2.2 := by
  unfold placeTextElementGroup
  cases re with
  | true => simpa using SegSpec.nilEvs
  | false =>
      simp only [Bool.false_eq_true, if_false]
      obtain ⟨m1, m2, m3⟩ := placeGroupGo_spec maxNum pass g.priority g.visited
        g.elements counter []
      exact ⟨m1, m2, m3⟩

lemma placeNewTextElementsGo_seg (re : Bool) (maxNum : Int) :
    ∀ (gs : List PGroup) (counter : Nat),
      SegSpec maxNum (NoLMGroups gs) counter
        (placeNewTextElementsGo re maxNum gs counter).1
        (placeNewTextElementsGo re maxNum gs counter).2 := by
  intro gs
  induction gs with
  | nil =>
      intro counter
      simpa [placeNewTextElementsGo] using SegSpec.nilEvs
  | cons g rest ih =>
      intro counter
      simp only [placeNewTextElementsGo]
      have hg := (placeTextElementGroup_seg re maxNum .newLabels g counter).weaken
        (fun (hlm : NoLMGroups (g :: rest)) => hlm g (List.mem_cons_self _ _))
      by_cases hok : (placeTextElementGroup re maxNum .newLabels g counter).2.1 = true
      · simp only [hok, if_true]
        have hrest := (ih (placeTextElementGroup re maxNum .newLabels g counter).1).weaken
          (fun (hlm : NoLMGroups (g :: rest)) g' hg' =>
            hlm g' (List.mem_cons_of_mem _ hg'))
        exact hg.comp hrest
      · simp only [hok, if_false]
        have : (placeTextElementGroup re maxNum Pass.newLabels g counter).2.2 =
            (placeTextElementGroup re maxNum Pass.newLabels g counter).2.2 ++ [] := by simp
        exact ⟨hg.1, hg.2.1, hg.2.2⟩

lemma placeTextElementsGo_seg (re : Bool) (maxNum : Int) (placeNew timed : Bool)
    (timeEx : Nat → Bool) :
    ∀ (gs pending : List PGroup) (counter k : Nat),
      SegSpec maxNum (NoLMGroups (pending ++ gs)) counter
        (placeTextElementsGo re maxNum placeNew timed timeEx gs pending counter k).1
        (placeTextElementsGo re maxNum placeNew timed timeEx gs pending counter k).2 := by
  intro gs
  induction gs with
  | nil =>
      intro pending counter k
      simp only [placeTextElementsGo]
      cases placeNew with
      | true =>
          simp only [if_true]
          exact (placeNewTextElementsGo_seg re maxNum pending counter).weaken
            (fun hlm g hg => hlm g (by simpa using hg))
      | false =>
          simpa using SegSpec.nilEvs
  | cons g rest ih =>
      intro pending counter k
      have wAll : ∀ {l : List PGroup},
          (∀ g' ∈ l, g' ∈ pending ++ g :: rest) →
          (NoLMGroups (pending ++ g :: rest) → NoLMGroups l) := by
        intro l hsub hlm g' hg' e he
        exact hlm g' (hsub g' hg') e he
      have hmemPending : ∀ g' ∈ pending, g' ∈ pending ++ g :: rest := by
        intro g' hg'
        exact List.mem_append_left _ hg'
      have hmemCur : g ∈ pending ++ g :: rest :=
        List.mem_append_right _ (List.mem_cons_self _ _)
      have hmemRestAll : ∀ g' ∈ g :: rest, g' ∈ pending ++ g :: rest := by
        intro g' hg'
        exact List.mem_append_right _ hg'
      have hmemTail : ∀ g' ∈ [g] ++ rest, g' ∈ pending ++ g :: rest := by
        intro g' hg'
        rcases List.mem_append.mp hg' with h | h
        · simpa [List.mem_singleton.mp h] using hmemCur
        · exact List.mem_append_right _ (List.mem_cons_of_mem _ h)
      simp only [placeTextElementsGo]
      by_cases hbound : (placeNew && !pending.isEmpty &&
          pendingPriority pending != g.priority) = true
      · simp only [hbound, if_true]
        have hf := (placeNewTextElementsGo_seg re maxNum pending counter).weaken
          (wAll hmemPending)
        by_cases hex : isPlacementTimeExceeded timed timeEx k = true
        · simp only [hex, if_true]
          have ht := (placeNewTextElementsGo_seg re maxNum (pending ++ g :: rest)
            (placeNewTextElementsGo re maxNum pending counter).1).weaken
            (wAll fun g' hg' => hg')
          exact hf.comp ht
        · simp only [hex, Bool.false_eq_true, if_false]
          have hpr := (placeTextElementGroup_seg re maxNum .persistentLabels g
            (placeNewTextElementsGo re maxNum pending counter).1).weaken
            (fun (hlm : NoLMGroups (pending ++ g :: rest)) => hlm g hmemCur)
          by_cases hok : (placeTextElementGroup re maxNum .persistentLabels g
              (placeNewTextElementsGo re maxNum pending counter).1).2.1 = true
          · simp only [hok, Bool.not_true, Bool.false_eq_true, if_false]
            by_cases hex2 : isPlacementTimeExceeded timed timeEx (k + 1) = true
            · simp only [hex2, if_true]
              cases hpn : placeNew with
              | true =>
                  simp only [if_true]
                  have ht := (placeNewTextElementsGo_seg re maxNum (g :: rest)
                    (placeTextElementGroup re maxNum Pass.persistentLabels g (placeNewTextElementsGo re maxNum pending counter).1).1).weaken (wAll hmemRestAll)
                  exact (hf.comp hpr).comp ht
              | false =>
                  simp only [Bool.false_eq_true, if_false]
                  have := (hf.comp hpr).comp (@SegSpec.nilEvs maxNum _ _)
                  simpa using this
            · simp only [hex2, Bool.false_eq_true, if_false]
              have hc := (ih [g] (placeTextElementGroup re maxNum Pass.persistentLabels g (placeNewTextElementsGo re maxNum pending counter).1).1 (k + 2)).weaken (wAll hmemTail)
              exact (hf.comp hpr).comp hc
          · simp only [hok, Bool.not_true]
            simp only [Bool.not_false, if_true]
            cases hpn : placeNew with
            | true =>
                simp only [if_true]
                have ht := (placeNewTextElementsGo_seg re maxNum (g :: rest)
                  (placeTextElementGroup re maxNum Pass.persistentLabels g (placeNewTextElementsGo re maxNum pending counter).1).1).weaken (wAll hmemRestAll)
                exact (hf.comp hpr).comp ht
            | false =>
                simp only [Bool.false_eq_true, if_false]
                have := (hf.comp hpr).comp (@SegSpec.nilEvs maxNum _ _)
                simpa using this
      · simp only [hbound, Bool.false_eq_true, if_false]
        have hpr := (placeTextElementGroup_seg re maxNum .persistentLabels g
          counter).weaken
          (fun (hlm : NoLMGroups (pending ++ g :: rest)) => hlm g hmemCur)
        by_cases hok : (placeTextElementGroup re maxNum .persistentLabels g
            counter).2.1 = true
        · simp only [hok, Bool.not_true, Bool.false_eq_true, if_false]
          by_cases hex : isPlacementTimeExceeded timed timeEx k = true
          · simp only [hex, if_true]
            cases hpn : placeNew with
            | true =>
                simp only [if_true]
                have ht := (placeNewTextElementsGo_seg re maxNum (pending ++ g :: rest)
                  (placeTextElementGroup re maxNum Pass.persistentLabels g counter).1).weaken (wAll fun g' hg' => hg')
                exact hpr.comp ht
            | false =>
                simp only [Bool.false_eq_true, if_false]
                have := hpr.comp (@SegSpec.nilEvs maxNum _ _)
                simpa using this
          · simp only [hex, Bool.false_eq_true, if_false]
            have hc := (ih (pending ++ [g]) (placeTextElementGroup re maxNum Pass.persistentLabels g counter).1 (k + 1)).weaken
              (wAll (by
                intro g' hg'
                have : pending ++ [g] ++ rest = pending ++ g :: rest := by simp
                rw [← this]
                exact hg'))
            exact hpr.comp hc
        · simp only [hok, Bool.not_true]
          simp only [Bool.not_false, if_true]
          cases hpn : placeNew with
          | true =>
              simp only [if_true]
              have ht := (placeNewTextElementsGo_seg re maxNum (pending ++ g :: rest)
                (placeTextElementGroup re maxNum Pass.persistentLabels g counter).1).weaken (wAll fun g' hg' => hg')
              exact hpr.comp ht
          | false =>
              simp only [Bool.false_eq_true, if_false]
              have := hpr.comp (@SegSpec.nilEvs maxNum _ _)
              simpa using this

/-- Claim C3 (amended): with `maxNumVisibleLabels = N ≥ 0`,
`placeTextElementGroup` stops — returning `false` with no further events —
before attempting another element once `numRenderedTextElements` has reached
N, in both the persistent and the new pass (first conjunct); consequently at
most N elements are rendered in a frame (second conjunct); and the counter
itself never exceeds N provided no element is a line marker (third conjunct)
— a line-marker element placed at several points increments the counter once
per marker inside a single attempt, which lets the counter overshoot N as the
counterexample shows. -/
theorem C3_label_budget (re : Bool) (maxNum : Int) (pass : Pass) (g : PGroup)
    (counter : Nat) (placeNew timed : Bool) (timeEx : Nat → Bool)
    (groups : List PGroup) (hm : 0 ≤ maxNum) :
    ((counter : Int) ≥ maxNum → g.elements ≠ [] →
      placeTextElementGroup re maxNum pass g counter = (counter, false, [])) ∧
    ((rendersCount (placeTextElements re maxNum placeNew timed timeEx groups).2 : Int) ≤
      maxNum) ∧
    (NoLMGroups groups →
      ((placeTextElements re maxNum placeNew timed timeEx groups).1 : Int) ≤ maxNum) := by
  refine ⟨?_, ?_, ?_⟩
  · intro hc hne
    unfold placeTextElementGroup
    cases re with
    | true => simp
    | false =>
        simp only [Bool.false_eq_true, if_false]
        cases hel : g.elements with
        | nil => exact absurd hel hne
        | cons e rest =>
            simp only [placeGroupGo]
            rw [if_pos ⟨hm, hc⟩]
  · unfold placeTextElements
    by_cases hempty : groups.isEmpty = true
    · simp only [hempty, if_true]
      simp [rendersCount]
      omega
    · simp only [hempty, Bool.false_eq_true, if_false]
      obtain ⟨_, hrc, _⟩ :=
        placeTextElementsGo_seg re maxNum placeNew timed timeEx groups [] 0 0
      have := hrc hm
      omega
  · intro hno
    unfold placeTextElements
    by_cases hempty : groups.isEmpty = true
    · simp only [hempty, if_true]
      simpa using hm
    · simp only [hempty, Bool.false_eq_true, if_false]
      obtain ⟨_, _, hlm⟩ :=
        placeTextElementsGo_seg re maxNum placeNew timed timeEx groups [] 0 0
      refine hlm ?_ hm (by simpa using hm)
      intro g' hg'
      exact hno g' (by simpa using hg')

/-- Concrete eligible persistent line-marker element with two projected,
placeable marker points. -/
def c3Marker : PElem :=
  { id := 7, initialized := true, viewDistance := some 10, visible := true
    canvasReady := true, hidden := false, ready := true, capacityOk := true
    add := .lineMarker true none none [⟨some (0, 0), true⟩, ⟨some (1000, 0), true⟩] }

/-- Claim C3 counterexample: with `maxNumVisibleLabels = 1` a single
line-marker element placed at its two marker points drives
`numRenderedTextElements` to 2 — the counter exceeds N within one element
attempt, because the budget is only checked between elements. -/
theorem C3_counterexample :
    (placeTextElements false 1 false false (fun _ => false)
      [{ priority := 5, visited := true, elements := [c3Marker] }]).1 = 2 ∧
    ¬((placeTextElements false 1 false false (fun _ => false)
      [{ priority := 5, visited := true, elements := [c3Marker] }]).1 ≤ 1) := by
  refine ⟨?_, ?_⟩ <;> decide

/-- Witness for C3: a concrete group whose budget is already exhausted is
rejected untouched, and a concrete frame with budget 1 renders at most one
element. -/
theorem C3_witness :
    placeTextElementGroup false 1 Pass.persistentLabels
      { priority := 5, visited := true, elements := [c3Marker] } 1 = (1, false, []) ∧
    (rendersCount (placeTextElements false 1 false false (fun _ => false)
      [{ priority := 5, visited := true, elements := [c3Marker] }]).2 : Int) ≤ 1 := by
  have h := C3_label_budget false 1 Pass.persistentLabels
    { priority := 5, visited := true, elements := [c3Marker] } 1 false false
    (fun _ => false) [{ priority := 5, visited := true, elements := [c3Marker] }]
    (by decide)
  exact ⟨h.1 (by decide) (by decide), h.2.1⟩

/-! ### Claim C8 -/

lemma checkForSmallLabels_all_offscreen (n : Nat) (pts : List (Option (Int × Int)))
    (h : pts.all Option.isNone = true) : checkForSmallLabels n pts = false := by
  unfold checkForSmallLabels
  have hnil : pts.filterMap id = [] := by
    rw [List.filterMap_eq_nil]
    intro a ha
    have := List.all_eq_true.mp h a ha
    simpa [Option.isNone_iff_eq_none] using this
  simp [hnil]

/-- Claim C8: a path label is placed all-or-nothing — when any character box
along the path is off screen, or allocated while overlap is disallowed,
`addPathLabel` does not place (no `addText`, no counter increment, no render
event; first conjunct); and a path label whose projected anchor points are
all off screen fails `checkForSmallLabels`, so the group loop resets its
element state and moves on without placing it and without any exception (the
group is reported fully processed; second conjunct). -/
theorem C8_path_label_all_or_nothing
    (gv dOk fOk mOk mov : Bool) (cbs : List CharBox)
    (sh : List (Nat × List (Int × Int))) (e : PElem) (maxNum : Int) (pass : Pass)
    (pr : Int) (counter : Nat) (n : Nat) (pts : List (Option (Int × Int))) :
    ((∃ cb ∈ cbs, cb.seen = false ∨ (mov = false ∧ cb.allocated = true)) →
      addPathLabel gv dOk fOk mOk mov cbs ≠ PathResult.placed ∧
      (e.add = AddSpec.path n pts dOk fOk mOk mov cbs →
        (runAdd gv sh e).2.1 = 0 ∧ rendersCount (runAdd gv sh e).2.2 = 0)) ∧
    (e.add = AddSpec.path n pts dOk fOk mOk mov cbs →
      pts.all Option.isNone = true →
      e.initialized = true → e.viewDistance.isNone = false →
      passSkip pass e.visible = false → e.canvasReady = true → e.hidden = false →
      ¬(maxNum ≥ 0 ∧ (counter : Int) ≥ maxNum) →
      placeTextElementGroup false maxNum pass ⟨pr, gv, [e]⟩ counter =
        (counter, true, [.attempt pass pr e.id, .reset e.id])) := by
  constructor
  · intro hbad
    have hany : (cbs.any fun cb => !cb.seen || (!mov && cb.allocated)) = true := by
      rw [List.any_eq_true]
      obtain ⟨cb, hcb, hcond⟩ := hbad
      refine ⟨cb, hcb, ?_⟩
      rcases hcond with h | ⟨h1, h2⟩
      · simp [h]
      · simp [h1, h2]
    have hres : addPathLabel gv dOk fOk mOk mov cbs ≠ PathResult.placed := by
      intro hplaced
      unfold addPathLabel at hplaced
      split_ifs at hplaced <;> simp_all [hany]
    refine ⟨hres, ?_⟩
    intro he
    unfold runAdd
    rw [he]
    simp only
    cases hr : addPathLabel gv dOk fOk mOk mov cbs with
    | rejectedReset => simp [rendersCount, isRenderEvent]
    | rejectedKeep => simp [rendersCount, isRenderEvent]
    | placed => exact absurd hr hres
  · intro he hall hinit hvd hmatch hcv hh hb
    have hsmall : checkForSmallLabels e.add.pathTextLen e.add.pathAnchors = false := by
      rw [he]
      simpa [AddSpec.pathTextLen, AddSpec.pathAnchors] using
        checkForSmallLabels_all_offscreen n pts hall
    have hetype : e.add.etype = TextElementType.PathLabel := by
      rw [he]
      rfl
    unfold placeTextElementGroup
    simp only [Bool.false_eq_true, if_false]
    simp only [placeGroupGo]
    rw [if_neg hb]
    simp only [hinit, Bool.not_true, Bool.false_eq_true, if_false]
    rw [if_neg (by simp [hvd])]
    rw [if_neg (by simp [hmatch])]
    simp only [hcv, Bool.not_true, Bool.false_eq_true, if_false]
    simp only [hh, Bool.false_eq_true, if_false]
    rw [if_pos ⟨hetype, hsmall⟩]

/-- Concrete path label of the C8 witness: eligible for the persistent pass
but with both anchor points outside the view. -/
def c8Elem : PElem :=
  { id := 9, initialized := true, viewDistance := some 5, visible := true
    canvasReady := true, hidden := false, ready := true, capacityOk := true
    add := .path 3 [none, none] true true true false [] }

/-- Witness for C8: the concrete off-screen path label is discarded with its
state reset, and a concrete off-screen character box blocks placement. -/
theorem C8_witness :
    placeTextElementGroup false (-1) Pass.persistentLabels
      { priority := 4, visited := true, elements := [c8Elem] } 0 =
      (0, true, [.attempt Pass.persistentLabels 4 9, .reset 9]) ∧
    addPathLabel true true true true false [⟨false, false⟩] ≠ PathResult.placed := by
  have ha := C8_path_label_all_or_nothing true true true true false [⟨false, false⟩]
    [] c8Elem (-1) Pass.persistentLabels 4 0 3 [none, none]
  have hb := C8_path_label_all_or_nothing true true true true false []
    [] c8Elem (-1) Pass.persistentLabels 4 0 3 [none, none]
  constructor
  · exact hb.2 rfl (by decide) rfl rfl (by decide) rfl rfl (by decide)
  · exact (ha.1 ⟨⟨false, false⟩, by decide, Or.inl rfl⟩).1

/-! ### Claim C2 -/

/-- Persistent-pass eligibility: the element passed the pre-placement filter
and its state is currently visible. -/
def persistentEligible (e : PElem) : Prop :=
  e.initialized = true ∧ e.viewDistance.isSome = true ∧ e.visible = true

lemma runAdd_no_attempt (gv : Bool) (sh : List (Nat × List (Int × Int))) (e : PElem)
    (pa : Pass) (p : Int) (i : Nat) :
    PEvent.attempt pa p i ∉ (runAdd gv sh e).2.2 := by
  unfold runAdd
  cases e.add with
  | poi projected pointOk =>
      by_cases h : projected && pointOk <;> simp [h]
  | lineMarker prepOk idx minD pts =>
      by_cases h : (addLineMarkerLabel prepOk idx minD pts sh).2 > 0 <;> simp [h]
  | path n pts dOk fOk mOk mov cbs =>
      cases hres : addPathLabel gv dOk fOk mOk mov cbs <;> simp [hres]

lemma placeGroupGo_attempt_mem (maxNum : Int) (pass : Pass) (pr : Int) (gv : Bool) :
    ∀ (elems : List PElem) (counter : Nat) (sh : List (Nat × List (Int × Int)))
      (pa : Pass) (p : Int) (i : Nat),
      PEvent.attempt pa p i ∈ (placeGroupGo maxNum pass pr gv elems counter sh).2.2 →
      pa = pass ∧ p = pr := by
  intro elems
  induction elems with
  | nil =>
      intro counter sh pa p i h
      simp [placeGroupGo] at h
  | cons e rest ih =>
      intro counter sh pa p i h
      simp only [placeGroupGo] at h
      by_cases hb : maxNum ≥ 0 ∧ (counter : Int) ≥ maxNum
      · rw [if_pos hb] at h
        simp at h
      · rw [if_neg hb] at h
        cases hinit : e.initialized with
        | false =>
            simp only [hinit, Bool.not_false, if_true] at h
            exact ih counter sh pa p i h
        | true =>
        simp only [hinit, Bool.not_true, Bool.false_eq_true, if_false] at h
        by_cases hvd : e.viewDistance.isNone
        · rw [if_pos hvd] at h
          exact ih counter sh pa p i h
        · rw [if_neg hvd] at h
          by_cases hpass : passSkip pass e.visible = true
          · rw [if_pos hpass] at h
            exact ih counter sh pa p i h
          · rw [if_neg hpass] at h
            cases hcr : e.canvasReady with
            | false =>
                simp only [hcr, Bool.not_false, if_true] at h
                rcases List.mem_cons.mp h with h1 | h1
                · rw [PEvent.attempt.injEq] at h1
                  exact ⟨h1.1, h1.2.1⟩
                · exact ih counter sh pa p i h1
            | true =>
            simp only [hcr, Bool.not_true, Bool.false_eq_true, if_false] at h
            cases hh : e.hidden with
            | true =>
                simp only [hh, if_true] at h
                rcases List.mem_cons.mp h with h1 | h1
                · rw [PEvent.attempt.injEq] at h1
                  exact ⟨h1.1, h1.2.1⟩
                · exact ih counter sh pa p i h1
            | false =>
            simp only [hh, Bool.false_eq_true, if_false] at h
            by_cases hsmall : e.add.etype = TextElementType.PathLabel ∧
                checkForSmallLabels e.add.pathTextLen e.add.pathAnchors = false
            · rw [if_pos hsmall] at h
              rcases List.mem_cons.mp h with h1 | h1
              · rw [PEvent.attempt.injEq] at h1
                exact ⟨h1.1, h1.2.1⟩
              · rcases List.mem_cons.mp h1 with h2 | h2
                · exact absurd h2 (by simp)
                · exact ih counter sh pa p i h2
            · rw [if_neg hsmall] at h
              cases hrdy : e.ready with
              | false =>
                  simp only [hrdy, Bool.not_false, if_true] at h
                  rcases List.mem_cons.mp h with h1 | h1
                  · rw [PEvent.attempt.injEq] at h1
                    exact ⟨h1.1, h1.2.1⟩
                  · exact ih counter sh pa p i h1
              | true =>
              simp only [hrdy, Bool.not_true, Bool.false_eq_true, if_false] at h
              cases hcap : e.capacityOk with
              | false =>
                  simp only [hcap, Bool.not_false, if_true] at h
                  rcases List.mem_cons.mp h with h1 | h1
                  · rw [PEvent.attempt.injEq] at h1
                    exact ⟨h1.1, h1.2.1⟩
                  · exact ih counter sh pa p i h1
              | true =>
              simp only [hcap, Bool.not_true, Bool.false_eq_true, if_false] at h
              rcases List.mem_cons.mp h with h1 | h1
              · rw [PEvent.attempt.injEq] at h1
                exact ⟨h1.1, h1.2.1⟩
              · rcases List.mem_append.mp h1 with h2 | h2
                · exact absurd h2 (runAdd_no_attempt gv sh e pa p i)
                · exact ih _ _ pa p i h2

lemma placeTextElementGroup_attempt_mem (re : Bool) (maxNum : Int) (pass : Pass)
    (g : PGroup) (counter : Nat) (pa : Pass) (p : Int) (i : Nat)
    (h : PEvent.attempt pa p i ∈ (placeTextElementGroup re maxNum pass g counter).2.2) :
    pa = pass ∧ p = g.priority := by
  unfold placeTextElementGroup at h
  cases re with
  | true => simp at h
  | false =>
      simp only [Bool.false_eq_true, if_false] at h
      exact placeGroupGo_attempt_mem maxNum pass g.priority g.visited g.elements
        counter [] pa p i h

lemma placeNewTextElementsGo_attempt_mem (re : Bool) (maxNum : Int) :
    ∀ (gs : List PGroup) (counter : Nat) (pa : Pass) (p : Int) (i : Nat),
      PEvent.attempt pa p i ∈ (placeNewTextElementsGo re maxNum gs counter).2 →
      pa = Pass.newLabels ∧ ∃ g ∈ gs, p = g.priority := by
  intro gs
  induction gs with
  | nil =>
      intro counter pa p i h
      simp [placeNewTextElementsGo] at h
  | cons g rest ih =>
      intro counter pa p i h
      simp only [placeNewTextElementsGo] at h
      by_cases hok : (placeTextElementGroup re maxNum .newLabels g counter).2.1 = true
      · simp only [hok, if_true] at h
        rcases List.mem_append.mp h with h1 | h1
        · obtain ⟨hpa, hp⟩ := placeTextElementGroup_attempt_mem re maxNum _ g counter
            pa p i h1
          exact ⟨hpa, g, List.mem_cons_self _ _, hp⟩
        · obtain ⟨hpa, g', hg', hp⟩ := ih _ pa p i h1
          exact ⟨hpa, g', List.mem_cons_of_mem _ hg', hp⟩
      · simp only [hok, Bool.false_eq_true, if_false] at h
        obtain ⟨hpa, hp⟩ := placeTextElementGroup_attempt_mem re maxNum _ g counter
          pa p i h
        exact ⟨hpa, g, List.mem_cons_self _ _, hp⟩

lemma placeGroupGo_false_budget (maxNum : Int) (pass : Pass) (pr : Int) (gv : Bool) :
    ∀ (elems : List PElem) (counter : Nat) (sh : List (Nat × List (Int × Int))),
      (placeGroupGo maxNum pass pr gv elems counter sh).2.1 = false →
      maxNum ≥ 0 ∧ ((placeGroupGo maxNum pass pr gv elems counter sh).1 : Int) ≥ maxNum := by
  intro elems
  induction elems with
  | nil =>
      intro counter sh h
      simp [placeGroupGo] at h
  | cons e rest ih =>
      intro counter sh h
      simp only [placeGroupGo] at h ⊢
      by_cases hb : maxNum ≥ 0 ∧ (counter : Int) ≥ maxNum
      · rw [if_pos hb] at h ⊢
        exact hb
      · rw [if_neg hb] at h ⊢
        cases hinit : e.initialized with
        | false =>
            simp only [hinit, Bool.not_false, if_true] at h ⊢
            exact ih counter sh h
        | true =>
        simp only [hinit, Bool.not_true, Bool.false_eq_true, if_false] at h ⊢
        by_cases hvd : e.viewDistance.isNone
        · rw [if_pos hvd] at h ⊢
          exact ih counter sh h
        · rw [if_neg hvd] at h ⊢
          by_cases hpass : passSkip pass e.visible = true
          · rw [if_pos hpass] at h ⊢
            exact ih counter sh h
          · rw [if_neg hpass] at h ⊢
            cases hcr : e.canvasReady with
            | false =>
                simp only [hcr, Bool.not_false, if_true] at h ⊢
                exact ih counter sh h
            | true =>
            simp only [hcr, Bool.not_true, Bool.false_eq_true, if_false] at h ⊢
            cases hh : e.hidden with
            | true =>
                simp only [hh, if_true] at h ⊢
                exact ih counter sh h
            | false =>
            simp only [hh, Bool.false_eq_true, if_false] at h ⊢
            by_cases hsmall : e.add.etype = TextElementType.PathLabel ∧
                checkForSmallLabels e.add.pathTextLen e.add.pathAnchors = false
            · rw [if_pos hsmall] at h ⊢
              exact ih counter sh h
            · rw [if_neg hsmall] at h ⊢
              cases hrdy : e.ready with
              | false =>
                  simp only [hrdy, Bool.not_false, if_true] at h ⊢
                  exact ih counter sh h
              | true =>
              simp only [hrdy, Bool.not_true, Bool.false_eq_true, if_false] at h ⊢
              cases hcap : e.capacityOk with
              | false =>
                  simp only [hcap, Bool.not_false, if_true] at h ⊢
                  exact ih counter sh h
              | true =>
              simp only [hcap, Bool.not_true, Bool.false_eq_true, if_false] at h ⊢
              exact ih _ _ h

lemma newPass_stuck (re : Bool) (maxNum : Int) :
    ∀ (gs : List PGroup) (counter : Nat),
      (re = true ∨ (maxNum ≥ 0 ∧ (counter : Int) ≥ maxNum)) →
      (∀ g ∈ gs, g.elements ≠ []) →
      placeNewTextElementsGo re maxNum gs counter = (counter, []) := by
  intro gs
  induction gs with
  | nil => intro counter _ _; rfl
  | cons g rest ih =>
      intro counter hstuck hne
      have hgrp : placeTextElementGroup re maxNum .newLabels g counter =
          (counter, false, []) := by
        unfold placeTextElementGroup
        rcases hstuck with hre | ⟨hm, hc⟩
        · rw [hre]
          rfl
        · cases re with
          | true => rfl
          | false =>
              simp only [Bool.false_eq_true, if_false]
              cases hel : g.elements with
              | nil => exact absurd hel (hne g (List.mem_cons_self _ _))
              | cons e r =>
                  simp only [placeGroupGo]
                  rw [if_pos ⟨hm, hc⟩]
      simp [placeNewTextElementsGo, hgrp]

lemma placeGroupGo_complete (maxNum : Int) (pr : Int) (gv : Bool) :
    ∀ (elems : List PElem) (counter : Nat) (sh : List (Nat × List (Int × Int))),
      (placeGroupGo maxNum Pass.persistentLabels pr gv elems counter sh).2.1 = true →
      ∀ e ∈ elems, persistentEligible e →
        PEvent.attempt Pass.persistentLabels pr e.id ∈
          (placeGroupGo maxNum Pass.persistentLabels pr gv elems counter sh).2.2 := by
  intro elems
  induction elems with
  | nil =>
      intro counter sh _ e he
      simp at he
  | cons e0 rest ih =>
      intro counter sh hok e he helig
      obtain ⟨helig1, helig2, helig3⟩ := helig
      simp only [placeGroupGo] at hok ⊢
      by_cases hb : maxNum ≥ 0 ∧ (counter : Int) ≥ maxNum
      · rw [if_pos hb] at hok
        simp at hok
      · rw [if_neg hb] at hok ⊢
        rcases List.mem_cons.mp he with hea | hea
        · subst hea
          simp only [helig1, Bool.not_true, Bool.false_eq_true, if_false] at hok ⊢
          have hvd : e.viewDistance.isNone = false := by
            simp [Option.isNone_eq_false_iff, ← Option.isSome_iff_ne_none]
            exact helig2
          rw [if_neg (by simp [hvd])] at hok ⊢
          have hps : passSkip Pass.persistentLabels e.visible = false := by
            simp [passSkip, helig3]
          rw [if_neg (by simp [hps])] at hok ⊢
          cases hcr : e.canvasReady with
          | false =>
              simp only [hcr, Bool.not_false, if_true]
              exact List.mem_cons_self _ _
          | true =>
          simp only [hcr, Bool.not_true, Bool.false_eq_true, if_false]
          cases hh : e.hidden with
          | true =>
              simp only [hh, if_true]
              exact List.mem_cons_self _ _
          | false =>
          simp only [hh, Bool.false_eq_true, if_false]
          by_cases hsmall : e.add.etype = TextElementType.PathLabel ∧
              checkForSmallLabels e.add.pathTextLen e.add.pathAnchors = false
          · rw [if_pos hsmall]
            exact List.mem_cons_self _ _
          · rw [if_neg hsmall]
            cases hrdy : e.ready with
            | false =>
                simp only [hrdy, Bool.not_false, if_true]
                exact List.mem_cons_self _ _
            | true =>
            simp only [hrdy, Bool.not_true, Bool.false_eq_true, if_false]
            cases hcap : e.capacityOk with
            | false =>
                simp only [hcap, Bool.not_false, if_true]
                exact List.mem_cons_self _ _
            | true =>
            simp only [hcap, Bool.not_true, Bool.false_eq_true, if_false]
            exact List.mem_cons_self _ _
        · cases hinit : e0.initialized with
          | false =>
              simp only [hinit, Bool.not_false, if_true] at hok ⊢
              exact ih counter sh hok e hea ⟨helig1, helig2, helig3⟩
          | true =>
          simp only [hinit, Bool.not_true, Bool.false_eq_true, if_false] at hok ⊢
          by_cases hvd : e0.viewDistance.isNone
          · rw [if_pos hvd] at hok ⊢
            exact ih counter sh hok e hea ⟨helig1, helig2, helig3⟩
          · rw [if_neg hvd] at hok ⊢
            by_cases hpass : passSkip Pass.persistentLabels e0.visible = true
            · rw [if_pos hpass] at hok ⊢
              exact ih counter sh hok e hea ⟨helig1, helig2, helig3⟩
            · rw [if_neg hpass] at hok ⊢
              cases hcr : e0.canvasReady with
              | false =>
                  simp only [hcr, Bool.not_false, if_true] at hok ⊢
                  exact List.mem_cons_of_mem _ (ih counter sh hok e hea
                    ⟨helig1, helig2, helig3⟩)
              | true =>
              simp only [hcr, Bool.not_true, Bool.false_eq_true, if_false] at hok ⊢
              cases hh : e0.hidden with
              | true =>
                  simp only [hh, if_true] at hok ⊢
                  exact List.mem_cons_of_mem _ (ih counter sh hok e hea
                    ⟨helig1, helig2, helig3⟩)
              | false =>
              simp only [hh, Bool.false_eq_true, if_false] at hok ⊢
              by_cases hsmall : e0.add.etype = TextElementType.PathLabel ∧
                  checkForSmallLabels e0.add.pathTextLen e0.add.pathAnchors = false
              · rw [if_pos hsmall] at hok ⊢
                exact List.mem_cons_of_mem _ (List.mem_cons_of_mem _
                  (ih counter sh hok e hea ⟨helig1, helig2, helig3⟩))
              · rw [if_neg hsmall] at hok ⊢
                cases hrdy : e0.ready with
                | false =>
                    simp only [hrdy, Bool.not_false, if_true] at hok ⊢
                    exact List.mem_cons_of_mem _ (ih counter sh hok e hea
                      ⟨helig1, helig2, helig3⟩)
                | true =>
                simp only [hrdy, Bool.not_true, Bool.false_eq_true, if_false] at hok ⊢
                cases hcap : e0.capacityOk with
                | false =>
                    simp only [hcap, Bool.not_false, if_true] at hok ⊢
                    exact List.mem_cons_of_mem _ (ih counter sh hok e hea
                      ⟨helig1, helig2, helig3⟩)
                | true =>
                simp only [hcap, Bool.not_true, Bool.false_eq_true, if_false] at hok ⊢
                refine List.mem_cons_of_mem _ (List.mem_append_right _ ?_)
                exact ih _ _ hok e hea ⟨helig1, helig2, helig3⟩

/-- Ordering guarantee on an event trace: at every cut of the trace, any
persistent attempt after the cut has priority at most that of any new-label
attempt before the cut — i.e. a persistent attempt of strictly higher
priority never occurs after a new-label attempt of lower priority. -/
def NoNewThenPers (out : List PEvent) : Prop :=
  ∀ l1 l2, out = l1 ++ l2 → ∀ p i, PEvent.attempt Pass.newLabels p i ∈ l1 →
    ∀ q j, PEvent.attempt Pass.persistentLabels q j ∈ l2 → q ≤ p

lemma noNewThenPers_of_no_pers {out : List PEvent}
    (h : ∀ q j, PEvent.attempt Pass.persistentLabels q j ∉ out) :
    NoNewThenPers out := by
  intro l1 l2 heq p i _ q j hpers
  exact absurd (by rw [heq]; exact List.mem_append_right l1 hpers) (h q j)

lemma noNewThenPers_of_no_new {out : List PEvent}
    (h : ∀ p i, PEvent.attempt Pass.newLabels p i ∉ out) :
    NoNewThenPers out := by
  intro l1 l2 heq p i hnew q j _
  exact absurd (by rw [heq]; exact List.mem_append_left l2 hnew) (h p i)

lemma NoNewThenPers.append {A B : List PEvent}
    (hA : NoNewThenPers A) (hB : NoNewThenPers B)
    (hAB : ∀ p i, PEvent.attempt Pass.newLabels p i ∈ A →
      ∀ q j, PEvent.attempt Pass.persistentLabels q j ∈ B → q ≤ p) :
    NoNewThenPers (A ++ B) := by
  intro l1 l2 heq p i hnew q j hpers
  rcases List.append_eq_append_iff.mp heq.symm with ⟨a', ha1, ha2⟩ | ⟨c', hc1, hc2⟩
  · have hnewA : PEvent.attempt Pass.newLabels p i ∈ A := by
      rw [ha1]
      exact List.mem_append_left a' hnew
    rcases List.mem_append.mp (ha2 ▸ hpers) with hpa | hpa
    · exact hA l1 a' ha1 p i hnew q j hpa
    · exact hAB p i hnewA q j hpa
  · have hpersB : PEvent.attempt Pass.persistentLabels q j ∈ B := by
      rw [hc2]
      exact List.mem_append_right c' hpers
    rcases List.mem_append.mp (hc1 ▸ hnew) with hna | hna
    · exact hAB p i hna q j hpersB
    · exact hB c' l2 hc2 p i hna q j hpers

/-- All attempt events in a trace have priority at most `b`. -/
def attemptsLE (out : List PEvent) (b : Int) : Prop :=
  ∀ pa p i, PEvent.attempt pa p i ∈ out → p ≤ b

lemma attemptsLE_append {A B : List PEvent} {b : Int}
    (hA : attemptsLE A b) (hB : attemptsLE B b) : attemptsLE (A ++ B) b := by
  intro pa p i h
  rcases List.mem_append.mp h with h1 | h1
  · exact hA pa p i h1
  · exact hB pa p i h1

lemma attemptsLE_group (re : Bool) (maxNum : Int) (pass : Pass) (g : PGroup)
    (counter : Nat) {b : Int} (h : g.priority ≤ b) :
    attemptsLE (placeTextElementGroup re maxNum pass g counter).2.2 b := by
  intro pa p i hm
  obtain ⟨_, hp⟩ := placeTextElementGroup_attempt_mem re maxNum pass g counter pa p i hm
  rw [hp]
  exact h

lemma attemptsLE_newPass (re : Bool) (maxNum : Int) (gs : List PGroup) (counter : Nat)
    {b : Int} (h : ∀ g ∈ gs, g.priority ≤ b) :
    attemptsLE (placeNewTextElementsGo re maxNum gs counter).2 b := by
  intro pa p i hm
  obtain ⟨_, g, hg, hp⟩ := placeNewTextElementsGo_attempt_mem re maxNum gs counter
    pa p i hm
  rw [hp]
  exact h g hg

lemma group_no_new (re : Bool) (maxNum : Int) (g : PGroup) (counter : Nat) :
    ∀ p i, PEvent.attempt Pass.newLabels p i ∉
      (placeTextElementGroup re maxNum Pass.persistentLabels g counter).2.2 := by
  intro p i hm
  obtain ⟨hpa, _⟩ :=
    placeTextElementGroup_attempt_mem re maxNum _ g counter _ p i hm
  exact Pass.noConfusion hpa

lemma newPass_no_pers (re : Bool) (maxNum : Int) (gs : List PGroup) (counter : Nat) :
    ∀ q j, PEvent.attempt Pass.persistentLabels q j ∉
      (placeNewTextElementsGo re maxNum gs counter).2 := by
  intro q j hm
  obtain ⟨hpa, _⟩ := placeNewTextElementsGo_attempt_mem re maxNum gs counter _ q j hm
  exact Pass.noConfusion hpa

/-- Descending priority order of the sorted group states. -/
def sortedDesc (gs : List PGroup) : Prop :=
  List.Pairwise (fun a b => b.priority ≤ a.priority) gs

/-- All groups of the current priority range share its priority. -/
def pendingAllEq (pending : List PGroup) : Prop :=
  ∀ g ∈ pending, g.priority = pendingPriority pending

lemma pendingPriority_append (pending l : List PGroup) (h : pending ≠ []) :
    pendingPriority (pending ++ l) = pendingPriority pending := by
  cases pending with
  | nil => exact absurd rfl h
  | cons x xs => rfl

lemma placeTextElementsGo_attemptsLE (re : Bool) (maxNum : Int)
    (placeNew timed : Bool) (timeEx : Nat → Bool) (b : Int) :
    ∀ (gs pending : List PGroup) (counter k : Nat),
      (∀ g ∈ pending ++ gs, g.priority ≤ b) →
      attemptsLE (placeTextElementsGo re maxNum placeNew timed timeEx gs pending
        counter k).2 b := by
  intro gs
  induction gs with
  | nil =>
      intro pending counter k hb
      simp only [placeTextElementsGo]
      cases placeNew with
      | true =>
          simp only [if_true]
          exact attemptsLE_newPass re maxNum pending counter
            (fun g hg => hb g (by simpa using hg))
      | false =>
          intro pa p i hm
          simp at hm
  | cons g rest ih =>
      intro pending counter k hb
      have hbPending : ∀ g' ∈ pending, g'.priority ≤ b :=
        fun g' hg' => hb g' (List.mem_append_left _ hg')
      have hbAll : ∀ g' ∈ pending ++ g :: rest, g'.priority ≤ b := hb
      have hbCur : g.priority ≤ b :=
        hb g (List.mem_append_right _ (List.mem_cons_self _ _))
      have hbTailAll : ∀ g' ∈ g :: rest, g'.priority ≤ b :=
        fun g' hg' => hb g' (List.mem_append_right _ hg')
      simp only [placeTextElementsGo]
      by_cases hbound : (placeNew && !pending.isEmpty &&
          pendingPriority pending != g.priority) = true
      · simp only [hbound, if_true]
        by_cases hex : isPlacementTimeExceeded timed timeEx k = true
        · simp only [hex, if_true]
          exact attemptsLE_append (attemptsLE_newPass re maxNum pending counter hbPending)
            (attemptsLE_newPass re maxNum _ _ hbAll)
        · simp only [hex, Bool.false_eq_true, if_false]
          by_cases hok : (placeTextElementGroup re maxNum .persistentLabels g
              (placeNewTextElementsGo re maxNum pending counter).1).2.1 = true
          · simp only [hok, Bool.not_true, Bool.false_eq_true, if_false]
            by_cases hex2 : isPlacementTimeExceeded timed timeEx (k + 1) = true
            · simp only [hex2, if_true]
              refine attemptsLE_append (attemptsLE_append (attemptsLE_newPass re maxNum
                pending counter hbPending) (attemptsLE_group re maxNum _ g _ hbCur)) ?_
              cases placeNew with
              | true =>
                  simp only [if_true]
                  exact attemptsLE_newPass re maxNum _ _ hbTailAll
              | false =>
                  simp only [Bool.false_eq_true, if_false]
                  intro pa p i hm
                  simp at hm
            · simp only [hex2, Bool.false_eq_true, if_false]
              refine attemptsLE_append (attemptsLE_append (attemptsLE_newPass re maxNum
                pending counter hbPending) (attemptsLE_group re maxNum _ g _ hbCur)) ?_
              exact ih [g] _ (k + 2) (fun g' hg' => hbTailAll g' (by simpa using hg'))
          · simp only [hok, Bool.not_true, Bool.not_false, if_true]
            refine attemptsLE_append (attemptsLE_append (attemptsLE_newPass re maxNum
              pending counter hbPending) (attemptsLE_group re maxNum _ g _ hbCur)) ?_
            cases placeNew with
            | true =>
                simp only [if_true]
                exact attemptsLE_newPass re maxNum _ _ hbTailAll
            | false =>
                simp only [Bool.false_eq_true, if_false]
                intro pa p i hm
                simp at hm
      · simp only [hbound, Bool.false_eq_true, if_false]
        by_cases hok : (placeTextElementGroup re maxNum .persistentLabels g
            counter).2.1 = true
        · simp only [hok, Bool.not_true, Bool.false_eq_true, if_false]
          by_cases hex : isPlacementTimeExceeded timed timeEx k = true
          · simp only [hex, if_true]
            refine attemptsLE_append (attemptsLE_group re maxNum _ g _ hbCur) ?_
            cases placeNew with
            | true =>
                simp only [if_true]
                exact attemptsLE_newPass re maxNum _ _ hbAll
            | false =>
                simp only [Bool.false_eq_true, if_false]
                intro pa p i hm
                simp at hm
          · simp only [hex, Bool.false_eq_true, if_false]
            refine attemptsLE_append (attemptsLE_group re maxNum _ g _ hbCur) ?_
            refine ih (pending ++ [g]) _ (k + 1) ?_
            intro g' hg'
            refine hb g' ?_
            have : pending ++ [g] ++ rest = pending ++ g :: rest := by simp
            rw [← this]
            exact hg'
        · simp only [hok, Bool.not_true, Bool.not_false, if_true]
          refine attemptsLE_append (attemptsLE_group re maxNum _ g _ hbCur) ?_
          cases placeNew with
          | true =>
              simp only [if_true]
              exact attemptsLE_newPass re maxNum _ _ hbAll
          | false =>
              simp only [Bool.false_eq_true, if_false]
              intro pa p i hm
              simp at hm

lemma placeTextElementsGo_no_new (re : Bool) (maxNum : Int) (timed : Bool)
    (timeEx : Nat → Bool) :
    ∀ (gs pending : List PGroup) (counter k : Nat) (p : Int) (i : Nat),
      PEvent.attempt Pass.newLabels p i ∉
        (placeTextElementsGo re maxNum false timed timeEx gs pending counter k).2 := by
  intro gs
  induction gs with
  | nil =>
      intro pending counter k p i hm
      simp [placeTextElementsGo] at hm
  | cons g rest ih =>
      intro pending counter k p i hm
      simp only [placeTextElementsGo, Bool.false_and, Bool.false_eq_true, if_false] at hm
      by_cases hok : (placeTextElementGroup re maxNum .persistentLabels g
          counter).2.1 = true
      · simp only [hok, Bool.not_true, Bool.false_eq_true, if_false] at hm
        by_cases hex : isPlacementTimeExceeded timed timeEx k = true
        · simp only [hex, if_true] at hm
          rcases List.mem_append.mp hm with h1 | h1
          · exact group_no_new re maxNum g counter p i h1
          · simp at h1
        · simp only [hex, Bool.false_eq_true, if_false] at hm
          rcases List.mem_append.mp hm with h1 | h1
          · exact group_no_new re maxNum g counter p i h1
          · exact ih (pending ++ [g]) _ (k + 1) p i h1
      · simp only [hok, Bool.not_true, Bool.not_false, if_true] at hm
        rcases List.mem_append.mp hm with h1 | h1
        · exact group_no_new re maxNum g counter p i h1
        · simp at h1

lemma placeTextElementsGo_ordered (re : Bool) (maxNum : Int) (timed : Bool)
    (timeEx : Nat → Bool) :
    ∀ (gs pending : List PGroup) (counter k : Nat),
      sortedDesc (pending ++ gs) → pendingAllEq pending →
      NoNewThenPers
        (placeTextElementsGo re maxNum true timed timeEx gs pending counter k).2 := by
  intro gs
  induction gs with
  | nil =>
      intro pending counter k _ _
      simp only [placeTextElementsGo, if_true]
      exact noNewThenPers_of_no_pers (newPass_no_pers re maxNum pending counter)
  | cons g rest ih =>
      intro pending counter k hsorted hallEq
      have hsortTail : sortedDesc ([g] ++ rest) := by
        have hsub : ([g] ++ rest).Sublist (pending ++ g :: rest) := by
          simpa using List.sublist_append_right pending (g :: rest)
        exact List.Pairwise.sublist hsub hsorted
      have hgDominatesRest : ∀ g' ∈ rest, g'.priority ≤ g.priority := by
        have h1 : List.Pairwise (fun a b => b.priority ≤ a.priority) (g :: rest) := by
          simpa [sortedDesc] using hsortTail
        exact fun g' hg' => (List.pairwise_cons.mp h1).1 g' hg'
      have hTailLE : ∀ g' ∈ [g] ++ rest, g'.priority ≤ g.priority := by
        intro g' hg'
        rcases List.mem_append.mp hg' with h1 | h1
        · rw [List.mem_singleton.mp h1]
        · exact hgDominatesRest g' h1
      have hrecBound : attemptsLE (placeTextElementsGo re maxNum true timed timeEx rest
          [g] (placeTextElementGroup re maxNum .persistentLabels g
            (placeNewTextElementsGo re maxNum pending counter).1).1 (k + 2)).2
          g.priority :=
        placeTextElementsGo_attemptsLE re maxNum true timed timeEx g.priority rest [g] _
          (k + 2) (fun g' hg' => hTailLE g' (by simpa using hg'))
      simp only [placeTextElementsGo, Bool.true_and]
      by_cases hbound : (!pending.isEmpty &&
          pendingPriority pending != g.priority) = true
      · have hb' : pending.isEmpty = false ∧ ¬pendingPriority pending = g.priority := by
          simpa using hbound
        have hpne : pending ≠ [] := by
          intro hcon
          rw [hcon] at hb'
          simp at hb'
        have hgLEpp : g.priority ≤ pendingPriority pending := by
          cases hpd : pending with
          | nil => exact absurd hpd hpne
          | cons ph pt =>
              have h1 : List.Pairwise (fun a b => b.priority ≤ a.priority)
                  (ph :: (pt ++ g :: rest)) := by
                rw [hpd] at hsorted
                simpa [sortedDesc] using hsorted
              have h2 := (List.pairwise_cons.mp h1).1 g
                (List.mem_append_right pt (List.mem_cons_self _ _))
              simpa [pendingPriority] using h2
        have hflushP : ∀ p i, PEvent.attempt Pass.newLabels p i ∈
            (placeNewTextElementsGo re maxNum pending counter).2 →
            p = pendingPriority pending := by
          intro p i hm
          obtain ⟨_, g', hg', hp⟩ :=
            placeNewTextElementsGo_attempt_mem re maxNum pending counter _ p i hm
          rw [hp]
          exact hallEq g' hg'
        have hflushNoPers := newPass_no_pers re maxNum pending counter
        simp only [hbound, if_true]
        by_cases hex : isPlacementTimeExceeded timed timeEx k = true
        · simp only [hex, if_true]
          exact NoNewThenPers.append (noNewThenPers_of_no_pers hflushNoPers)
            (noNewThenPers_of_no_pers (newPass_no_pers re maxNum _ _))
            (fun p i _ q j hpers => absurd hpers (newPass_no_pers re maxNum _ _ q j))
        · simp only [hex, Bool.false_eq_true, if_false]
          have hprPers : ∀ q j, PEvent.attempt Pass.persistentLabels q j ∈
              (placeTextElementGroup re maxNum .persistentLabels g
                (placeNewTextElementsGo re maxNum pending counter).1).2.2 →
              q = g.priority := by
            intro q j hm
            exact (placeTextElementGroup_attempt_mem re maxNum _ g _ _ q j hm).2
          have hA : NoNewThenPers ((placeNewTextElementsGo re maxNum pending counter).2 ++
              (placeTextElementGroup re maxNum .persistentLabels g
                (placeNewTextElementsGo re maxNum pending counter).1).2.2) := by
            refine NoNewThenPers.append (noNewThenPers_of_no_pers hflushNoPers)
              (noNewThenPers_of_no_new (group_no_new re maxNum g _)) ?_
            intro p i hnew q j hpers
            rw [hprPers q j hpers, hflushP p i hnew]
            exact hgLEpp
          have hAnew : ∀ p i, PEvent.attempt Pass.newLabels p i ∈
              ((placeNewTextElementsGo re maxNum pending counter).2 ++
                (placeTextElementGroup re maxNum .persistentLabels g
                  (placeNewTextElementsGo re maxNum pending counter).1).2.2) →
              p = pendingPriority pending := by
            intro p i hm
            rcases List.mem_append.mp hm with h1 | h1
            · exact hflushP p i h1
            · exact absurd h1 (group_no_new re maxNum g _ p i)
          by_cases hok : (placeTextElementGroup re maxNum .persistentLabels g
              (placeNewTextElementsGo re maxNum pending counter).1).2.1 = true
          · simp only [hok, Bool.not_true, Bool.false_eq_true, if_false]
            by_cases hex2 : isPlacementTimeExceeded timed timeEx (k + 1) = true
            · simp only [hex2, if_true, Bool.true_eq_false]
              exact NoNewThenPers.append hA
                (noNewThenPers_of_no_pers (newPass_no_pers re maxNum _ _))
                (fun p i _ q j hpers => absurd hpers (newPass_no_pers re maxNum _ _ q j))
            · simp only [hex2, Bool.false_eq_true, if_false]
              refine NoNewThenPers.append hA
                (ih [g] _ (k + 2) (by simpa using hsortTail) ?_) ?_
              · intro x hx
                rw [List.mem_singleton.mp hx]
                rfl
              · intro p i hnew q j hpers
                have hq : q ≤ g.priority := hrecBound _ q j hpers
                rw [hAnew p i hnew]
                exact le_trans hq hgLEpp
          · simp only [hok, Bool.not_true, Bool.not_false, if_true]
            exact NoNewThenPers.append hA
              (noNewThenPers_of_no_pers (newPass_no_pers re maxNum _ _))
              (fun p i _ q j hpers => absurd hpers (newPass_no_pers re maxNum _ _ q j))
      · simp only [hbound, Bool.false_eq_true, if_false]
        have hpor : pending = [] ∨ pendingPriority pending = g.priority := by
          by_cases hpd : pending = []
          · exact Or.inl hpd
          · right
            by_contra hcon
            apply hbound
            simp only [Bool.and_eq_true, bne_iff_ne, Bool.not_eq_true']
            exact ⟨by simpa [List.isEmpty_iff] using hpd, hcon⟩
        have hallEq' : pendingAllEq (pending ++ [g]) := by
          cases hpd : pending with
          | nil =>
              intro x hx
              have hxg : x = g := by simpa using hx
              rw [hxg]
              rfl
          | cons ph pt =>
              rw [← hpd]
              have hpp : pendingPriority (pending ++ [g]) = pendingPriority pending := by
                apply pendingPriority_append
                rw [hpd]
                simp
              have hpg : pendingPriority pending = g.priority := by
                rcases hpor with h1 | h1
                · rw [hpd] at h1
                  simp at h1
                · exact h1
              intro x hx
              rcases List.mem_append.mp hx with h1 | h1
              · rw [hpp]
                exact hallEq x h1
              · rw [List.mem_singleton.mp h1, hpp, hpg]
        have hsorted' : sortedDesc ((pending ++ [g]) ++ rest) := by
          have : (pending ++ [g]) ++ rest = pending ++ g :: rest := by simp
          rw [this]
          exact hsorted
        have hNoNewPr := group_no_new re maxNum g counter
        by_cases hok : (placeTextElementGroup re maxNum .persistentLabels g
            counter).2.1 = true
        · simp only [hok, Bool.not_true, Bool.false_eq_true, if_false]
          by_cases hex : isPlacementTimeExceeded timed timeEx k = true
          · simp only [hex, if_true]
            exact NoNewThenPers.append (noNewThenPers_of_no_new hNoNewPr)
              (noNewThenPers_of_no_pers (newPass_no_pers re maxNum _ _))
              (fun p i hnew => absurd hnew (hNoNewPr p i))
          · simp only [hex, Bool.false_eq_true, if_false]
            exact NoNewThenPers.append (noNewThenPers_of_no_new hNoNewPr)
              (ih (pending ++ [g]) _ (k + 1) hsorted' hallEq')
              (fun p i hnew => absurd hnew (hNoNewPr p i))
        · simp only [hok, Bool.not_true, Bool.not_false, if_true]
          exact NoNewThenPers.append (noNewThenPers_of_no_new hNoNewPr)
            (noNewThenPers_of_no_pers (newPass_no_pers re maxNum _ _))
            (fun p i hnew => absurd hnew (hNoNewPr p i))

lemma placeTextElementGroup_false_char (re : Bool) (maxNum : Int) (pass : Pass)
    (g : PGroup) (counter : Nat)
    (h : (placeTextElementGroup re maxNum pass g counter).2.1 = false) :
    re = true ∨ (maxNum ≥ 0 ∧
      ((placeTextElementGroup re maxNum pass g counter).1 : Int) ≥ maxNum) := by
  cases re with
  | true => exact Or.inl rfl
  | false =>
      refine Or.inr ?_
      unfold placeTextElementGroup at h ⊢
      simp only [Bool.false_eq_true, if_false] at h ⊢
      exact placeGroupGo_false_budget maxNum pass g.priority g.visited g.elements
        counter [] h

lemma placeTextElementGroup_persistent_complete (re : Bool) (maxNum : Int) (g : PGroup)
    (counter : Nat)
    (hok : (placeTextElementGroup re maxNum Pass.persistentLabels g counter).2.1 = true) :
    ∀ e ∈ g.elements, persistentEligible e →
      PEvent.attempt Pass.persistentLabels g.priority e.id ∈
        (placeTextElementGroup re maxNum Pass.persistentLabels g counter).2.2 := by
  cases re with
  | true => simp [placeTextElementGroup] at hok
  | false =>
      unfold placeTextElementGroup at hok ⊢
      simp only [Bool.false_eq_true, if_false] at hok ⊢
      exact placeGroupGo_complete maxNum g.priority g.visited g.elements counter [] hok

lemma split_middle {A B l1 l2 : List PEvent} {ev : PEvent}
    (h : A ++ B = l1 ++ ev :: l2) :
    (∃ l2a, A = l1 ++ ev :: l2a ∧ l2 = l2a ++ B) ∨
    (∃ l1b, B = l1b ++ ev :: l2 ∧ l1 = A ++ l1b) := by
  rcases List.append_eq_append_iff.mp h with ⟨a', ha1, ha2⟩ | ⟨c', hc1, hc2⟩
  · exact Or.inr ⟨a', ha2, ha1⟩
  · cases c' with
    | nil =>
        refine Or.inr ⟨[], ?_, ?_⟩
        · simpa using hc2.symm
        · simpa using hc1.symm
    | cons x c'' =>
        have h1 : ev = x ∧ l2 = c'' ++ B := by
          rw [List.cons_append] at hc2
          exact List.cons_eq_cons.mp hc2
        refine Or.inl ⟨c'', ?_, h1.2⟩
        rw [hc1, h1.1]

lemma placeTextElementsGo_new_cover (re : Bool) (maxNum : Int) (timeEx : Nat → Bool) :
    ∀ (gs pending : List PGroup) (counter k : Nat),
      sortedDesc (pending ++ gs) → pendingAllEq pending →
      (∀ g ∈ pending ++ gs, g.elements ≠ []) →
      ∀ l1 p i l2,
        (placeTextElementsGo re maxNum true false timeEx gs pending counter k).2 =
          l1 ++ PEvent.attempt Pass.newLabels p i :: l2 →
        ∀ g' ∈ gs, p ≤ g'.priority → ∀ e ∈ g'.elements, persistentEligible e →
          PEvent.attempt Pass.persistentLabels g'.priority e.id ∈ l1 := by
  intro gs
  induction gs with
  | nil =>
      intro pending counter k _ _ _ l1 p i l2 _ g' hg'
      simp at hg'
  | cons g rest ih =>
      intro pending counter k hsorted hallEq hne l1 p i l2 hsplit g' hg' hp e he helig
      have hsortTail : sortedDesc ([g] ++ rest) := by
        have hsub : ([g] ++ rest).Sublist (pending ++ g :: rest) := by
          simpa using List.sublist_append_right pending (g :: rest)
        exact List.Pairwise.sublist hsub hsorted
      have hTailLE : ∀ x ∈ [g] ++ rest, x.priority ≤ g.priority := by
        have h1 : List.Pairwise (fun a b => b.priority ≤ a.priority) (g :: rest) := by
          simpa [sortedDesc] using hsortTail
        intro x hx
        rcases List.mem_append.mp hx with h2 | h2
        · rw [List.mem_singleton.mp h2]
        · exact (List.pairwise_cons.mp h1).1 x h2
      have hneTail : ∀ x ∈ [g] ++ rest, x.elements ≠ [] := by
        intro x hx
        rcases List.mem_append.mp hx with h2 | h2
        · rw [List.mem_singleton.mp h2]
          exact hne g (List.mem_append_right _ (List.mem_cons_self _ _))
        · exact hne x (List.mem_append_right _ (List.mem_cons_of_mem _ h2))
      have hexF : isPlacementTimeExceeded false timeEx k = false := rfl
      have hexF2 : isPlacementTimeExceeded false timeEx (k + 1) = false := rfl
      simp only [placeTextElementsGo, Bool.true_and, hexF, hexF2, Bool.false_eq_true,
        if_false, if_true] at hsplit
      by_cases hbound : (!pending.isEmpty &&
          pendingPriority pending != g.priority) = true
      · have hb' : pending.isEmpty = false ∧ ¬pendingPriority pending = g.priority := by
          simpa using hbound
        have hpne : pending ≠ [] := by
          intro hcon
          rw [hcon] at hb'
          simp at hb'
        have hgLEpp : g.priority ≤ pendingPriority pending := by
          cases hpd : pending with
          | nil => exact absurd hpd hpne
          | cons ph pt =>
              have h1 : List.Pairwise (fun a b => b.priority ≤ a.priority)
                  (ph :: (pt ++ g :: rest)) := by
                rw [hpd] at hsorted
                simpa [sortedDesc] using hsorted
              have h2 := (List.pairwise_cons.mp h1).1 g
                (List.mem_append_right pt (List.mem_cons_self _ _))
              simpa [pendingPriority] using h2
        have hflushNew : ∀ p' i', PEvent.attempt Pass.newLabels p' i' ∈
            (placeNewTextElementsGo re maxNum pending counter).2 →
            p' = pendingPriority pending := by
          intro p' i' hm
          obtain ⟨_, gx, hgx, hpx⟩ :=
            placeNewTextElementsGo_attempt_mem re maxNum pending counter _ p' i' hm
          rw [hpx]
          exact hallEq gx hgx
        rw [hbound] at hsplit
        simp only [if_true] at hsplit
        by_cases hok : (placeTextElementGroup re maxNum .persistentLabels g
            (placeNewTextElementsGo re maxNum pending counter).1).2.1 = true
        · rw [hok] at hsplit
          simp only [Bool.not_true, Bool.false_eq_true, if_false] at hsplit
          rcases split_middle hsplit with ⟨l2a, hA, _⟩ | ⟨l1b, hB, hl1⟩
          · exfalso
            have hev : PEvent.attempt Pass.newLabels p i ∈
                (placeNewTextElementsGo re maxNum pending counter).2 ++
                (placeTextElementGroup re maxNum .persistentLabels g
                  (placeNewTextElementsGo re maxNum pending counter).1).2.2 := by
              rw [hA]
              exact List.mem_append_right _ (List.mem_cons_self _ _)
            rcases List.mem_append.mp hev with h1 | h1
            · have hpp := hflushNew p i h1
              have hgle : g'.priority ≤ g.priority := hTailLE g' (by simpa using hg')
              rw [hpp] at hp
              have : pendingPriority pending ≤ g.priority := le_trans hp hgle
              exact hb'.2 (le_antisymm this hgLEpp)
            · exact group_no_new re maxNum g _ p i h1
          · rcases List.mem_cons.mp hg' with hgg | hgg
            · subst hgg
              refine hl1 ▸ List.mem_append_left l1b ?_
              exact List.mem_append_right _
                (placeTextElementGroup_persistent_complete re maxNum g' _ hok e he helig)
            · have := ih [g] _ (k + 2) (by simpa using hsortTail)
                (by intro x hx; rw [List.mem_singleton.mp hx]; rfl)
                (fun x hx => hneTail x (by simpa using hx))
                l1b p i l2 hB g' hgg hp e he helig
              exact hl1 ▸ List.mem_append_right _ this
        · have hokF : (placeTextElementGroup re maxNum .persistentLabels g (placeNewTextElementsGo re maxNum pending counter).1).2.1 = false := by simpa using hok
          rw [hokF] at hsplit
          simp only [Bool.not_false, if_true] at hsplit
          have hstuck : placeNewTextElementsGo re maxNum (g :: rest)
              (placeTextElementGroup re maxNum .persistentLabels g
                (placeNewTextElementsGo re maxNum pending counter).1).1 =
              ((placeTextElementGroup re maxNum .persistentLabels g
                (placeNewTextElementsGo re maxNum pending counter).1).1, []) := by
            refine newPass_stuck re maxNum (g :: rest) _ ?_ ?_
            · exact placeTextElementGroup_false_char re maxNum _ g _
                (by simpa using hok)
            · intro x hx
              exact hneTail x (by simpa using hx)
          rw [hstuck] at hsplit
          simp only [List.append_nil] at hsplit
          exfalso
          have hev : PEvent.attempt Pass.newLabels p i ∈
              (placeNewTextElementsGo re maxNum pending counter).2 ++
              (placeTextElementGroup re maxNum .persistentLabels g
                (placeNewTextElementsGo re maxNum pending counter).1).2.2 := by
            rw [hsplit]
            exact List.mem_append_right _ (List.mem_cons_self _ _)
          rcases List.mem_append.mp hev with h1 | h1
          · have hpp := hflushNew p i h1
            have hgle : g'.priority ≤ g.priority := hTailLE g' (by simpa using hg')
            rw [hpp] at hp
            have : pendingPriority pending ≤ g.priority := le_trans hp hgle
            exact hb'.2 (le_antisymm this hgLEpp)
          · exact group_no_new re maxNum g _ p i h1
      · have hpor : pending = [] ∨ pendingPriority pending = g.priority := by
          by_cases hpd : pending = []
          · exact Or.inl hpd
          · right
            by_contra hcon
            apply hbound
            simp only [Bool.and_eq_true, bne_iff_ne, Bool.not_eq_true']
            exact ⟨by simpa [List.isEmpty_iff] using hpd, hcon⟩
        have hallEq' : pendingAllEq (pending ++ [g]) := by
          cases hpd : pending with
          | nil =>
              intro x hx
              have hxg : x = g := by simpa using hx
              rw [hxg]
              rfl
          | cons ph pt =>
              rw [← hpd]
              have hpp : pendingPriority (pending ++ [g]) = pendingPriority pending := by
                apply pendingPriority_append
                rw [hpd]
                simp
              have hpg : pendingPriority pending = g.priority := by
                rcases hpor with h1 | h1
                · rw [hpd] at h1
                  simp at h1
                · exact h1
              intro x hx
              rcases List.mem_append.mp hx with h1 | h1
              · rw [hpp]
                exact hallEq x h1
              · rw [List.mem_singleton.mp h1, hpp, hpg]
        have hsorted' : sortedDesc ((pending ++ [g]) ++ rest) := by
          have heq : (pending ++ [g]) ++ rest = pending ++ g :: rest := by simp
          rw [heq]
          exact hsorted
        have hne' : ∀ x ∈ (pending ++ [g]) ++ rest, x.elements ≠ [] := by
          intro x hx
          refine hne x ?_
          have heq : (pending ++ [g]) ++ rest = pending ++ g :: rest := by simp
          rw [← heq]
          exact hx
        have hboundF : (!pending.isEmpty && pendingPriority pending != g.priority) = false := by simpa using hbound
        rw [hboundF] at hsplit
        simp only [Bool.false_eq_true, if_false] at hsplit
        by_cases hok : (placeTextElementGroup re maxNum .persistentLabels g
            counter).2.1 = true
        · rw [hok] at hsplit
          simp only [Bool.not_true, Bool.false_eq_true, if_false] at hsplit
          rcases split_middle hsplit with ⟨l2a, hA, _⟩ | ⟨l1b, hB, hl1⟩
          · exfalso
            have hev : PEvent.attempt Pass.newLabels p i ∈
                (placeTextElementGroup re maxNum .persistentLabels g counter).2.2 := by
              rw [hA]
              exact List.mem_append_right _ (List.mem_cons_self _ _)
            exact group_no_new re maxNum g counter p i hev
          · rcases List.mem_cons.mp hg' with hgg | hgg
            · subst hgg
              refine hl1 ▸ List.mem_append_left l1b ?_
              exact placeTextElementGroup_persistent_complete re maxNum g' counter hok
                e he helig
            · have := ih (pending ++ [g]) _ (k + 1) hsorted' hallEq' hne'
                l1b p i l2 hB g' hgg hp e he helig
              exact hl1 ▸ List.mem_append_right _ this
        · have hokF : (placeTextElementGroup re maxNum .persistentLabels g counter).2.1 = false := by simpa using hok
          rw [hokF] at hsplit
          simp only [Bool.not_false, if_true] at hsplit
          have hstuck : placeNewTextElementsGo re maxNum (pending ++ g :: rest)
              (placeTextElementGroup re maxNum .persistentLabels g counter).1 =
              ((placeTextElementGroup re maxNum .persistentLabels g counter).1, []) := by
            refine newPass_stuck re maxNum _ _ ?_ hne
            exact placeTextElementGroup_false_char re maxNum _ g counter
              (by simpa using hok)
          rw [hstuck] at hsplit
          simp only [List.append_nil] at hsplit
          exfalso
          have hev : PEvent.attempt Pass.newLabels p i ∈
              (placeTextElementGroup re maxNum .persistentLabels g counter).2.2 := by
            rw [hsplit]
            exact List.mem_append_right _ (List.mem_cons_self _ _)
          exact group_no_new re maxNum g counter p i hev

/-- Element A of the concrete ordering scenario: a visible poi label. -/
def c2A : PElem :=
  { id := 1, initialized := true, viewDistance := some 0, visible := true,
    canvasReady := true, hidden := false, ready := true, capacityOk := true,
    add := .poi true true }

/-- Element B: a visible (persistent-eligible) poi label in the low-priority
group. -/
def c2B : PElem :=
  { id := 2, initialized := true, viewDistance := some 0, visible := true,
    canvasReady := true, hidden := false, ready := true, capacityOk := true,
    add := .poi true true }

/-- Element C: a not-yet-visible (new) poi label in the low-priority group. -/
def c2C : PElem :=
  { id := 3, initialized := true, viewDistance := some 0, visible := false,
    canvasReady := true, hidden := false, ready := true, capacityOk := true,
    add := .poi true true }

/-- High-priority group of the ordering scenario. -/
def c2G1 : PGroup := { priority := 2, visited := true, elements := [c2A] }

/-- Low-priority group of the ordering scenario. -/
def c2G2 : PGroup := { priority := 1, visited := true, elements := [c2B, c2C] }

/-- Claim C2 (corrected), clause 1 and the amended clause 2: in every
`placeTextElements` frame over priority-sorted group states, a persistent-pass
attempt of strictly higher priority never occurs after a new-pass attempt of
lower priority (the `NoNewThenPers` cut property, for any settings of the
text-renderers/budget/overload parameters); and when no placement time limit
is armed (`timed = false`, i.e. the frame is not both overloaded and dynamic),
before any new-label attempt at priority `p`, every persistent-eligible
element of every group of priority `≥ p` has already had its persistent-pass
attempt. The unqualified second clause of the claim is refuted by
`C2_counterexample`: with the placement time limit armed, the trailing
`placeNewTextElements` over the remaining groups still attempts new labels
whose equal-priority persistent labels were never attempted. -/
theorem C2_priority_pass_ordering (re : Bool) (maxNum : Int) (placeNew timed : Bool)
    (timeEx : Nat → Bool) (gs : List PGroup) (hsorted : sortedDesc gs) :
    NoNewThenPers (placeTextElements re maxNum placeNew timed timeEx gs).2 ∧
    ((∀ g ∈ gs, g.elements ≠ []) → ∀ l1 p i l2,
      (placeTextElements re maxNum placeNew false timeEx gs).2 =
        l1 ++ PEvent.attempt Pass.newLabels p i :: l2 →
      ∀ g' ∈ gs, p ≤ g'.priority → ∀ e ∈ g'.elements, persistentEligible e →
        PEvent.attempt Pass.persistentLabels g'.priority e.id ∈ l1) := by
  constructor
  · unfold placeTextElements
    by_cases hemp : gs.isEmpty
    · rw [if_pos hemp]
      exact noNewThenPers_of_no_new (by simp)
    · rw [if_neg hemp]
      cases placeNew with
      | true =>
          exact placeTextElementsGo_ordered re maxNum timed timeEx gs [] 0 0
            (by simpa using hsorted) (fun g hg => absurd hg (List.not_mem_nil g))
      | false =>
          exact noNewThenPers_of_no_new
            (fun p i => placeTextElementsGo_no_new re maxNum timed timeEx gs [] 0 0 p i)
  · intro hne l1 p i l2 heq g' hg' hp e he helig
    unfold placeTextElements at heq
    by_cases hemp : gs.isEmpty
    · exact absurd hg' (by rw [List.isEmpty_iff.mp hemp]; exact List.not_mem_nil g')
    · rw [if_neg hemp] at heq
      cases placeNew with
      | true =>
          exact placeTextElementsGo_new_cover re maxNum timeEx gs [] 0 0
            (by simpa using hsorted) (fun g hg => absurd hg (List.not_mem_nil g))
            (by simpa using hne) l1 p i l2 heq g' hg' hp e he helig
      | false =>
          exfalso
          refine placeTextElementsGo_no_new re maxNum false timeEx gs [] 0 0 p i ?_
          rw [heq]
          exact List.mem_append_right l1 (List.mem_cons_self _ _)

/-- Counterexample to the unqualified clause 2 of claim C2: with the
placement time limit armed (overloaded dynamic frame) and the clock already
over budget after the first group, the frame attempts the new label C of
priority 1 although the persistent-eligible label B of the same priority-1
group is never attempted at all during the frame. -/
theorem C2_counterexample :
    sortedDesc [c2G1, c2G2] ∧
    PEvent.attempt Pass.newLabels 1 c2C.id ∈
      (placeTextElements false (-1) true true (fun _ => true) [c2G1, c2G2]).2 ∧
    c2B ∈ c2G2.elements ∧ persistentEligible c2B ∧ (1 : Int) ≤ c2G2.priority ∧
    PEvent.attempt Pass.persistentLabels c2G2.priority c2B.id ∉
      (placeTextElements false (-1) true true (fun _ => true) [c2G1, c2G2]).2 := by
  refine ⟨?_, by decide, by decide, ⟨by decide, by decide, by decide⟩,
    by decide, by decide⟩
  unfold sortedDesc
  decide

/-- Witness for C2 at a concrete sorted frame. -/
theorem C2_witness :
    sortedDesc [c2G1, c2G2] ∧
    NoNewThenPers
      (placeTextElements false (-1) true false (fun _ => false) [c2G1, c2G2]).2 :=
  ⟨by unfold sortedDesc; decide,
    (C2_priority_pass_ordering false (-1) true false (fun _ => false) [c2G1, c2G2]
      (by unfold sortedDesc; decide)).1⟩

end Harp
